import Mathlib

/-
Verification of the ledger model of Gestor_de_gastos (gestor_gastos.py).

The Python source works on `str` and `decimal.Decimal`.  The embedding
models strings as `List Char` (ASCII fragment of the Python string
primitives: strip/split/replace/int/Decimal parsing), exact decimals as
`ℚ`, and the Tkinter-facing entry points as pure functions whose user
inputs (dialog results, selected row, typed payment, confirmation
answers, fresh uuids and timestamps) are explicit parameters.
-/

set_option linter.unusedVariables false

namespace GestorGastos

/-- ASCII digit test used by the embedded Python string primitives. -/
def isDig (c : Char) : Bool := 48 ≤ c.toNat && c.toNat ≤ 57

/-- Numeric value of an ASCII digit character. -/
def digitVal (c : Char) : Nat := c.toNat - 48

/-- Decimal digit character for a value below ten. -/
def decChar : Nat → Char
  | 0 => '0' | 1 => '1' | 2 => '2' | 3 => '3' | 4 => '4'
  | 5 => '5' | 6 => '6' | 7 => '7' | 8 => '8' | _ => '9'

/-- ASCII whitespace recognized by the models of str.strip, int and Decimal. -/
def isWS (c : Char) : Bool :=
  c == ' ' || c == '\t' || c == '\n' || c == '\r' || c == '\x0b' || c == '\x0c'

/-- Model of Python str.strip() (ASCII whitespace fragment). -/
def pyStripL (l : List Char) : List Char :=
  ((l.dropWhile isWS).reverse.dropWhile isWS).reverse

/-- Accumulator worker for the model of str.split(sep). -/
def pySplitAux (sep : Char) : List Char → List Char → List (List Char)
  | [], acc => [acc.reverse]
  | c :: cs, acc =>
    if c = sep then acc.reverse :: pySplitAux sep cs [] else pySplitAux sep cs (c :: acc)

/-- Model of Python str.split(sep) with a one-character separator. -/
def pySplit (l : List Char) (sep : Char) : List (List Char) := pySplitAux sep l []

/-- Least-significant-first decimal digits of a natural number.  Fuel-driven
so every use reduces by rfl; `natDigits` below supplies enough fuel. -/
def natDigitsRevAux : Nat → Nat → List Char
  | _, 0 => []
  | n, fuel + 1 =>
    if n < 10 then [decChar n] else decChar (n % 10) :: natDigitsRevAux (n / 10) fuel

/-- Most-significant-first decimal digits of n, i.e. Python str(n) for n ≥ 0. -/
def natDigits (n : Nat) : List Char := (natDigitsRevAux n (n + 1)).reverse

/-- Value of a least-significant-first digit list. -/
def valRev : List Char → Nat
  | [] => 0
  | c :: cs => digitVal c + 10 * valRev cs

/-- Value of a most-significant-first digit list. -/
def valN (l : List Char) : Nat := valRev l.reverse

/-- Python "%0wd" formatting of a nonnegative integer: zero-pad to width w. -/
def padNatTo (w n : Nat) : List Char :=
  List.replicate (w - (natDigits n).length) '0' ++ natDigits n

/-- Python "%0wd" formatting of an integer; the sign counts toward the width. -/
def padIntTo (w : Nat) (n : Int) : List Char :=
  if n < 0 then '-' :: padNatTo (w - 1) n.natAbs else padNatTo w n.natAbs

/-- Python str(n) for an integer. -/
def intStr (n : Int) : List Char :=
  if n < 0 then '-' :: natDigits n.natAbs else natDigits n.natAbs

/-- Tail of a Python int literal after its first digit: digits, with single
underscores allowed between digits; returns the digits without underscores. -/
def digitsUAux : List Char → Option (List Char)
  | [] => some []
  | [c] => if c = '_' then none else if isDig c then some [c] else none
  | c :: c2 :: rest =>
    if c = '_' then
      if isDig c2 then (digitsUAux rest).map (fun ds => c2 :: ds) else none
    else if isDig c then (digitsUAux (c2 :: rest)).map (fun ds => c :: ds) else none

/-- Body of a Python int literal (after sign): digit then digit/underscore groups. -/
def digitsU : List Char → Option Nat
  | [] => none
  | c :: rest =>
    if isDig c then (digitsUAux rest).map (fun ds => valN (c :: ds)) else none

/-- Model of Python int(str): surrounding whitespace, optional sign, decimal
digits with underscore grouping.  Unicode digits are outside the model. -/
def pyIntL (cs : List Char) : Option Int :=
  match pyStripL cs with
  | [] => none
  | c :: r =>
    if c = '+' then (digitsU r).map (fun n => (n : Int))
    else if c = '-' then (digitsU r).map (fun n => -(n : Int))
    else (digitsU (c :: r)).map (fun n => (n : Int))

/-- The tuple (int(aa), int(mm)) built at line 38 of parse_mm_aaaa
(gestor_gastos.py lines 32-40), None when either int() raises.  The outer
function returns (year, month). -/
def parMesAno : Option Int → Option Int → Option (Int × Int)
  | some a, some m => some (a, m)
  | _, _ => none

/-- Source parse_mm_aaaa continued: strip, reject empty, split on "/",
unpack exactly two fields, build (int(aa), int(mm)); any exception gives
None. -/
def parse_mm_aaaa (s : String) : Option (Int × Int) :=
  let t := pyStripL s.data
  if t = [] then none
  else
    match pySplit t '/' with
    | [mm, aa] => parMesAno (pyIntL aa) (pyIntL mm)
    | _ => none

/-- Source rotulo_mm_aaaa (lines 42-43): the f-string "{mes:02d}/{ano:d}". -/
def rotulo_mm_aaaa (ano mes : Int) : String :=
  String.mk (padIntTo 2 mes ++ '/' :: intStr ano)

/-- Gregorian leap-year rule of datetime.date. -/
def bissexto (y : Nat) : Bool := y % 4 == 0 && (y % 100 != 0 || y % 400 == 0)

/-- Days in a month as validated by datetime.date. -/
def diasNoMes (y m : Nat) : Nat :=
  if m = 2 then (if bissexto y then 29 else 28)
  else if m = 4 ∨ m = 6 ∨ m = 9 ∨ m = 11 then 30
  else 31

/-- Four mandatory digits, as CPython strptime's %Y regex. -/
def read4Digits (cs : List Char) : Option (Nat × List Char) :=
  match cs with
  | a :: b :: c :: d :: rest =>
    if isDig a && isDig b && isDig c && isDig d then
      some (((digitVal a * 10 + digitVal b) * 10 + digitVal c) * 10 + digitVal d, rest)
    else none
  | _ => none

/-- Month alternatives of CPython strptime's %m, in regex alternation order. -/
def mesAlts : List Char → List (Nat × List Char)
  | [] => []
  | [a] => if isDig a && a != '0' then [(digitVal a, [])] else []
  | a :: b :: rest =>
    (if a == '1' && isDig b && decide (digitVal b ≤ 2) then [(10 + digitVal b, rest)] else []) ++
    (if a == '0' && isDig b && b != '0' then [(digitVal b, rest)] else []) ++
    (if isDig a && a != '0' then [(digitVal a, b :: rest)] else [])

/-- Day alternatives of CPython strptime's %d, in regex alternation order. -/
def diaAlts : List Char → List (Nat × List Char)
  | [] => []
  | [a] => if isDig a && a != '0' then [(digitVal a, [])] else []
  | a :: b :: rest =>
    (if a == '3' && (b == '0' || b == '1') then [(30 + digitVal b, rest)] else []) ++
    (if (a == '1' || a == '2') && isDig b then [(digitVal a * 10 + digitVal b, rest)] else []) ++
    (if a == '0' && isDig b && b != '0' then [(digitVal b, rest)] else []) ++
    (if isDig a && a != '0' then [(digitVal a, b :: rest)] else [])

/-- First alternative on which the continuation succeeds (regex backtracking). -/
def firstSome? {α β : Type} : List α → (α → Option β) → Option β
  | [], _ => none
  | a :: as, f =>
    match f a with
    | some b => some b
    | none => firstSome? as f

/-- The textual phase of datetime.strptime(s, "%Y-%m-%d"): CPython's
compiled regex for this format (four-digit year, then month and day
alternatives tried in alternation order with backtracking, whole string
consumed). -/
def dateTextual (cs : List Char) : Option (Nat × Nat × Nat) :=
  match read4Digits cs with
  | none => none
  | some (yy, r1) =>
    match r1 with
    | [] => none
    | h1 :: r2 =>
      if h1 = '-' then
        firstSome? (mesAlts r2) (fun mc =>
          match mc.2 with
          | [] => none
          | h2 :: r4 =>
            if h2 = '-' then
              firstSome? (diaAlts r4) (fun dc =>
                if dc.2 = [] then some (yy, mc.1, dc.1) else none)
            else none)
      else none

/-- Model of datetime.strptime(s, "%Y-%m-%d").date(): the regex phase
above, then calendar validation by the date constructor (year at least 1,
day within the month). -/
def parseDateYmd (cs : List Char) : Option (Nat × Nat × Nat) :=
  match dateTextual cs with
  | some (yy, mm, dd) =>
    if 1 ≤ yy ∧ 1 ≤ dd ∧ dd ≤ diasNoMes yy mm then some (yy, mm, dd) else none
  | none => none

/-- Source normaliza_competencia (lines 45-57): strip; empty gives "";
mm/yyyy is reformatted as "{aa:04d}-{mm:02d}"; otherwise the input is kept
verbatim exactly when strptime(s + "-01", "%Y-%m-%d") succeeds, else "". -/
def normaliza_competencia (s : String) : String :=
  let t := pyStripL s.data
  if t = [] then ""
  else
    match parse_mm_aaaa (String.mk t) with
    | some (aa, mm) => String.mk (padIntTo 4 aa ++ '-' :: padIntTo 2 mm)
    | none => if (parseDateYmd (t ++ ['-', '0', '1'])).isSome then String.mk t else ""

/-- The f-string "{int(mm):02d}/{int(aa)}" of rotulo_competencia
(lines 59-67), "-" when either int() raises. -/
def rotuloPar : Option Int → Option Int → String
  | some m, some a => String.mk (padIntTo 2 m ++ '/' :: intStr a)
  | _, _ => "-"

/-- Source rotulo_competencia continued: strip; empty gives "-"; split on
"-" into exactly two fields and render; any exception gives "-". -/
def rotulo_competencia (iso : String) : String :=
  let t := pyStripL iso.data
  if t = [] then "-"
  else
    match pySplit t '-' with
    | [aa, mm] => rotuloPar (pyIntL mm) (pyIntL aa)
    | _ => "-"

/-- Decimal.quantize(Decimal("0.01"), ROUND_HALF_UP) as an integer number of
cents: ties round away from zero.  Decimal's signed zero has no image in ℚ. -/
def quantizeCents (v : ℚ) : Int :=
  if 0 ≤ v then ⌊v * 100 + 1 / 2⌋ else -⌊-v * 100 + 1 / 2⌋

/-- Thousands grouping of f"{x:,}" composed with the ','/'.' swap performed in
dinheiro, on the reversed (least-significant-first) digit list: a '.' after
every three digits that are followed by more digits. -/
def groupRev : List Char → List Char
  | [] => []
  | [a] => [a]
  | [a, b] => [a, b]
  | [a, b, c] => [a, b, c]
  | a :: b :: c :: d :: rest => a :: b :: c :: '.' :: groupRev (d :: rest)

/-- Thousands grouping (with '.') of a most-significant-first digit list. -/
def group3 (l : List Char) : List Char := (groupRev l.reverse).reverse

/-- Source dinheiro (lines 25-30): quantize to cents half-up, format with
f"{q:,.2f}", swap ',' and '.' through the "X" trick, prefix "R$ ". -/
def dinheiro (v : ℚ) : String :=
  let c := quantizeCents v
  let n := c.natAbs
  String.mk ('R' :: '$' :: ' ' ::
    ((if c < 0 then ['-'] else []) ++ group3 (natDigits (n / 100)) ++
      ',' :: padNatTo 2 (n % 100)))

/-- Model of str.replace("R$", ""): delete non-overlapping occurrences of
"R$", scanning left to right. -/
def removeRS : List Char → List Char
  | [] => []
  | [c] => [c]
  | c :: c2 :: rest =>
    if c = 'R' ∧ c2 = '$' then removeRS rest else c :: removeRS (c2 :: rest)

/-- Nonempty all-digit run, as the exponent digits of a Decimal literal. -/
def allDigits? (l : List Char) : Option Nat :=
  if l ≠ [] ∧ l.all isDig then some (valN l) else none

/-- Exponent part of a Decimal literal: optional sign then digits. -/
def pyExpPart (cs : List Char) : Option Int :=
  match cs with
  | [] => none
  | c :: r =>
    if c = '+' then (allDigits? r).map (fun n => (n : Int))
    else if c = '-' then (allDigits? r).map (fun n => -(n : Int))
    else (allDigits? (c :: r)).map (fun n => (n : Int))

/-- Value of a fixed-point literal body: integer digits plus fractional
digits scaled by their count. -/
def decFrac (ip fp : List Char) : ℚ :=
  (valN ip : ℚ) + (valN fp : ℚ) / (10 : ℚ) ^ fp.length

/-- Apply an exponent tail to an already-parsed mantissa. -/
def decExpApply (base : ℚ) (r : List Char) : Option ℚ :=
  (pyExpPart r).map (fun ex => base * (10 : ℚ) ^ ex)

/-- Rest of a Decimal literal after the point: fractional digits and an
optional exponent; at least one digit must exist overall. -/
def pyDecimalAfterPoint (ip r2 : List Char) : Option ℚ :=
  let fp := r2.takeWhile isDig
  let r3 := r2.dropWhile isDig
  if ip = [] ∧ fp = [] then none
  else
    match r3 with
    | [] => some (decFrac ip fp)
    | e :: r4 => if e = 'e' ∨ e = 'E' then decExpApply (decFrac ip fp) r4 else none

/-- Unsigned body of a Decimal literal: digits with an optional point (at
least one digit overall) and an optional exponent. -/
def pyDecimalCore (cs : List Char) : Option ℚ :=
  let ip := cs.takeWhile isDig
  let r1 := cs.dropWhile isDig
  match r1 with
  | [] => if ip = [] then none else some (valN ip : ℚ)
  | c :: r2 =>
    if c = '.' then pyDecimalAfterPoint ip r2
    else if c = 'e' ∨ c = 'E' then
      if ip = [] then none else decExpApply (valN ip : ℚ) r2
    else none

/-- Model of decimal.Decimal(str) on numeric literals: surrounding
whitespace, optional sign, fixed-point body, optional exponent.  Special
values (NaN, Infinity) and underscore grouping are outside the model; the
cleaned inputs the program feeds to Decimal never contain them. -/
def pyDecimalL (cs : List Char) : Option ℚ :=
  match pyStripL cs with
  | [] => none
  | c :: r =>
    if c = '+' then pyDecimalCore r
    else if c = '-' then (pyDecimalCore r).map (fun q => -q)
    else pyDecimalCore (c :: r)

/-- Source money-entry cleaning, DespesaDialog.validate lines 194-198 and
marcar_paga lines 621-625: strip, delete "R$", delete spaces, delete '.'
(thousands), turn ',' into '.', then Decimal. -/
def parseValorUI (s : String) : Option ℚ :=
  let t1 := pyStripL s.data
  let t2 := removeRS t1
  let t3 := t2.filter (fun c => c != ' ')
  let t4 := t3.filter (fun c => c != '.')
  let t5 := t4.map (fun c => if c = ',' then '.' else c)
  pyDecimalL t5

/-- The Despesa dataclass (lines 69-78).  Monetary fields are stored as
strings of exact decimals in the source and modelled as ℚ; every use site
converts through Decimal first. -/
structure Despesa where
  id : String
  titulo : String
  valor : ℚ
  competencia : String
  paga : Bool
  paga_em : String
  tipo : String
  valor_pago : ℚ
deriving DecidableEq, Repr

/-- One raw JSON object as consumed by carregar: absent keys are `none`.
String-encoded amounts are modelled as ℚ; a record whose stored amount does
not parse as a Decimal makes the whole load fall into the except branch,
which is outside this per-record model. -/
structure RawDespesa where
  id : Option String
  titulo : Option String
  valor : Option ℚ
  competencia : Option String
  vencimento : Option String
  paga : Option Bool
  paga_em : Option String
  tipo : Option String
  valor_pago : Option ℚ
deriving Repr

/-- Lines 88-96 of carregar: the competency value before normalization,
with the legacy vencimento date migrated when competencia is absent or
empty. -/
def compMigrada (raw : RawDespesa) : String :=
  let comp0 := raw.competencia.getD ""
  if comp0 = "" then
    (let venc := raw.vencimento.getD ""
     if venc = "" then ""
     else
       match parseDateYmd venc.data with
       | some (y, m, _) => String.mk (padNatTo 4 y ++ '-' :: padNatTo 2 m)
       | none => "")
  else comp0

/-- Lines 99-101 of carregar: category defaulting and lowercasing. -/
def tipoCarregado (raw : RawDespesa) : String :=
  let tipo0 :=
    match raw.tipo with
    | none => "extra"
    | some t => if t = "" then "extra" else String.mk (t.data.map Char.toLower)
  if tipo0 = "fixo" ∨ tipo0 = "extra" ∨ tipo0 = "guardado" then tipo0 else "extra"

/-- Source carregar, per-record body (lines 87-133): competency migration
from the legacy vencimento date, normalization, category defaulting, and
the settlement back-fill for guardado and fully-paid records.  carregar
maps this over the decoded array; freshId and now stand for the uuid4 and
datetime.now() calls. -/
def carregaRegistro (raw : RawDespesa) (freshId now : String) : Despesa :=
  let comp := normaliza_competencia (compMigrada raw)
  let tipo := tipoCarregado raw
  let valor := raw.valor.getD 0
  let valorPago := raw.valor_pago.getD 0
  let paga := raw.paga.getD false
  let pagaEm := raw.paga_em.getD ""
  if tipo = "guardado" then
    { id := raw.id.getD freshId, titulo := raw.titulo.getD "Sem título",
      valor := valor, competencia := comp, paga := true,
      paga_em := if pagaEm = "" then now else pagaEm, tipo := tipo,
      valor_pago := if valorPago < valor then valor else valorPago }
  else if valor ≤ valorPago then
    { id := raw.id.getD freshId, titulo := raw.titulo.getD "Sem título",
      valor := valor, competencia := comp, paga := true,
      paga_em := if pagaEm = "" then now else pagaEm, tipo := tipo,
      valor_pago := valorPago }
  else
    { id := raw.id.getD freshId, titulo := raw.titulo.getD "Sem título",
      valor := valor, competencia := comp, paga := paga,
      paga_em := pagaEm, tipo := tipo, valor_pago := valorPago }

/-- A validated DespesaDialog.result (lines 213-218): the dialog guarantees
a parsed Decimal value, a normalized competency and a category in TIPOS,
but those guarantees are stated as hypotheses where needed, not baked in. -/
structure EntradaForm where
  titulo : String
  valor : ℚ
  competencia : String
  tipo : String
deriving DecidableEq, Repr

/-- The record built by App.adicionar (lines 534-554). -/
def novaDespesa (r : EntradaForm) (freshId now : String) : Despesa :=
  if r.tipo == "guardado" then
    { id := freshId, titulo := r.titulo, valor := r.valor,
      competencia := r.competencia, paga := true, paga_em := now,
      tipo := r.tipo, valor_pago := r.valor }
  else
    { id := freshId, titulo := r.titulo, valor := r.valor,
      competencia := r.competencia, paga := false, paga_em := "",
      tipo := r.tipo, valor_pago := 0 }

/-- Source App.adicionar (lines 529-557): append the new record. -/
def adicionar (despesas : List Despesa) (r : EntradaForm) (freshId now : String) :
    List Despesa :=
  despesas ++ [novaDespesa r freshId now]

/-- Replace the first element satisfying p, as the in-place mutation of the
object returned by App._selecionada does. -/
def updateFirst {α : Type} (p : α → Bool) (f : α → α) : List α → List α
  | [] => []
  | a :: as => if p a then f a :: as else a :: updateFirst p f as

/-- Field updates of App.editar on the selected record (lines 578-598). -/
def editaDespesa (r : EntradaForm) (now : String) (d : Despesa) : Despesa :=
  let novoValor := r.valor
  let antigoPago := d.valor_pago
  if r.tipo == "guardado" then
    { d with titulo := r.titulo, valor := novoValor, competencia := r.competencia,
             tipo := r.tipo, valor_pago := novoValor, paga := true,
             paga_em := if d.paga_em = "" then now else d.paga_em }
  else
    let vp := if antigoPago > novoValor then novoValor else antigoPago
    let pg := decide (novoValor ≤ vp)
    { d with titulo := r.titulo, valor := novoValor, competencia := r.competencia,
             tipo := r.tipo, valor_pago := vp, paga := pg,
             paga_em := if pg then (if d.paga_em = "" then now else d.paga_em) else "" }

/-- Source App.editar (lines 570-601): edit the selected record in place;
no selection or a cancelled dialog leaves the collection unchanged. -/
def editar (despesas : List Despesa) (id : String) (r : EntradaForm) (now : String) :
    List Despesa :=
  updateFirst (fun d => d.id == id) (editaDespesa r now) despesas

/-- Outcome of App.marcar_paga, one per message/return path of lines 603-647. -/
inductive MarcarResultado where
  | ok
  | semSelecao
  | naoAplicavel
  | jaQuitada
  | valorInvalido
  | abortado
deriving DecidableEq, Repr

/-- Source App.marcar_paga (lines 603-647).  pagar is the Decimal parsed
from the prompt (the prompt itself and its parse failure happen before this
model); confirma is the askyesno answer to the overpayment question. -/
def marcarPaga (despesas : List Despesa) (id : String) (pagar : ℚ)
    (confirma : Bool) (now : String) : MarcarResultado × List Despesa :=
  match despesas.find? (fun d => d.id == id) with
  | none => (.semSelecao, despesas)
  | some d =>
    if d.tipo == "guardado" then (.naoAplicavel, despesas)
    else
      let restante := max 0 (d.valor - d.valor_pago)
      if restante ≤ 0 then (.jaQuitada, despesas)
      else if pagar ≤ 0 then (.valorInvalido, despesas)
      else
        let novoPago := d.valor_pago + pagar
        if novoPago > d.valor ∧ ¬confirma then (.abortado, despesas)
        else
          let novoPago2 := if novoPago > d.valor then d.valor else novoPago
          (.ok, updateFirst (fun x => x.id == id)
            (fun x =>
              { x with valor_pago := novoPago2,
                       paga := decide (d.valor ≤ novoPago2),
                       paga_em := if decide (d.valor ≤ novoPago2) then now else "" })
            despesas)

/-- Source App._aplica_filtros_base (lines 417-438), with the four Tk
filter variables as parameters: category, status, month label, search. -/
def aplica_filtros_base (fCategoria fStatus mesSel busca : String)
    (base : List Despesa) : List Despesa :=
  let b1 := if fCategoria != "todas" then base.filter (fun d => d.tipo == fCategoria) else base
  let b2 :=
    if fStatus = "pendentes" then
      b1.filter (fun d => d.tipo != "guardado" && decide (0 < d.valor - d.valor_pago))
    else if fStatus = "pagas" then
      b1.filter (fun d => d.tipo == "guardado" || decide (d.valor - d.valor_pago ≤ 0))
    else b1
  let b3 :=
    if mesSel ≠ "" ∧ mesSel ≠ "Todos" then
      match parse_mm_aaaa mesSel with
      | some (aa, mm) =>
        b2.filter (fun d => d.competencia == String.mk (padIntTo 4 aa ++ '-' :: padIntTo 2 mm))
      | none => b2
    else b2
  let q := (pyStripL busca.data).map Char.toLower
  if q ≠ [] then
    b3.filter (fun d => decide (List.IsInfix q (d.titulo.data.map Char.toLower)))
  else b3

/-- Source App._sum_pendente (lines 449-450): sum of valor - valor_pago
over fixo and extra records, starting from Decimal("0"). -/
def sum_pendente (linhas : List Despesa) : ℚ :=
  ((linhas.filter (fun d => d.tipo == "fixo" || d.tipo == "extra")).map
    (fun d => d.valor - d.valor_pago)).sum

/-- One user-driven mutation of the collection, with the non-deterministic
inputs (dialog results, fresh ids, clock readings, confirmations) made
explicit. -/
inductive Op where
  | add (r : EntradaForm) (freshId now : String)
  | edit (id : String) (r : EntradaForm) (now : String)
  | pay (id : String) (pagar : ℚ) (confirma : Bool) (now : String)

/-- Effect of one operation on the collection. -/
def aplicaOp (despesas : List Despesa) : Op → List Despesa
  | .add r freshId now => adicionar despesas r freshId now
  | .edit id r now => editar despesas id r now
  | .pay id pagar confirma now => (marcarPaga despesas id pagar confirma now).2

/-- Effect of a sequence of operations. -/
def aplicaOps (despesas : List Despesa) (ops : List Op) : List Despesa :=
  ops.foldl aplicaOp despesas

/-- The ledger invariant claimed by the specification: paid amount between
zero and the nominal amount, and the paga flag exactly the disjunction of
being guardado and being fully paid. -/
def invariante (d : Despesa) : Prop :=
  0 ≤ d.valor_pago ∧ d.valor_pago ≤ d.valor ∧
    d.paga = (d.tipo == "guardado" || decide (d.valor ≤ d.valor_pago))

instance (d : Despesa) : Decidable (invariante d) := by
  unfold invariante; exact inferInstance

/-- Inputs as constrained by the claim: add and edit carry a non-negative
amount. -/
def entradaNaoNeg : Op → Prop
  | .add r _ _ => 0 ≤ r.valor
  | .edit _ r _ => 0 ≤ r.valor
  | .pay _ _ _ _ => True

/-- Inputs as constrained by the amended claim: add carries a strictly
positive amount, edit a non-negative one. -/
def entradaPos : Op → Prop
  | .add r _ _ => 0 < r.valor
  | .edit _ r _ => 0 ≤ r.valor
  | .pay _ _ _ _ => True

/-- Spec-side pattern of the claims on parse_month_year: exactly mm/yyyy
with a two-digit month in 01..12 and a four-digit year. -/
def matches_mm_yyyy (s : String) : Bool :=
  match s.data with
  | [m1, m2, sl, y1, y2, y3, y4] =>
    sl == '/' && isDig m1 && isDig m2 && isDig y1 && isDig y2 && isDig y3 && isDig y4 &&
      decide (1 ≤ digitVal m1 * 10 + digitVal m2) &&
      decide (digitVal m1 * 10 + digitVal m2 ≤ 12)
  | _ => false

theorem updateFirst_length {α : Type} (p : α → Bool) (f : α → α) :
    ∀ l : List α, (updateFirst p f l).length = l.length
  | [] => rfl
  | a :: as => by
    unfold updateFirst
    cases h : p a <;> simp [updateFirst_length p f as]

theorem updateFirst_cons {α : Type} (p : α → Bool) (f : α → α) (a : α) (as : List α) :
    updateFirst p f (a :: as) = if p a then f a :: as else a :: updateFirst p f as := rfl

theorem updateFirst_getElem? {α : Type} (p : α → Bool) (f : α → α) :
    ∀ (l : List α) (i : Nat),
      (updateFirst p f l)[i]? = l[i]? ∨
        ((updateFirst p f l)[i]? = (l[i]?).map f ∧ i = l.findIdx p)
  | [], i => Or.inl rfl
  | a :: as, i => by
    by_cases h : p a = true
    · rw [updateFirst_cons, if_pos h]
      cases i with
      | zero => exact Or.inr ⟨by simp, by simp [List.findIdx_cons, h]⟩
      | succ j => exact Or.inl (by simp)
    · rw [updateFirst_cons, if_neg h]
      have h' : p a = false := by simpa using h
      cases i with
      | zero => exact Or.inl (by simp)
      | succ j =>
        rcases updateFirst_getElem? p f as j with hc | ⟨hc, hi⟩
        · exact Or.inl (by simpa using hc)
        · exact Or.inr ⟨by simpa using hc, by simp [List.findIdx_cons, h', hi]⟩

theorem updateFirst_forall {α : Type} (p : α → Bool) (f : α → α) (P : α → Prop) :
    ∀ l : List α, (∀ x ∈ l, P x) → (∀ x, l.find? p = some x → P (f x)) →
      ∀ y ∈ updateFirst p f l, P y
  | a :: as, hl, hf, y, hy => by
    by_cases h : p a = true
    · rw [updateFirst_cons, if_pos h] at hy
      rcases List.mem_cons.mp hy with rfl | hy'
      · exact hf a (by rw [List.find?_cons_of_pos _ h])
      · exact hl y (List.mem_cons_of_mem a hy')
    · rw [updateFirst_cons, if_neg h] at hy
      rcases List.mem_cons.mp hy with rfl | hy'
      · exact hl y (List.mem_cons_self _ _)
      · exact updateFirst_forall p f P as (fun x hx => hl x (List.mem_cons_of_mem a hx))
          (fun x hx => hf x (by rwa [List.find?_cons_of_neg _ h])) y hy'

theorem invariante_novaDespesa (r : EntradaForm) (freshId now : String)
    (h : 0 < r.valor) : invariante (novaDespesa r freshId now) := by
  unfold invariante novaDespesa
  by_cases hg : (r.tipo == "guardado") = true
  · rw [if_pos hg]
    exact ⟨le_of_lt h, le_refl _, by simp [hg]⟩
  · rw [if_neg hg]
    refine ⟨le_refl _, le_of_lt h, ?_⟩
    have : ¬ (r.valor ≤ (0 : ℚ)) := not_le.mpr h
    simp [hg, this]

theorem invariante_editaDespesa (r : EntradaForm) (now : String) (d : Despesa)
    (hr : 0 ≤ r.valor) (hd : invariante d) : invariante (editaDespesa r now d) := by
  obtain ⟨h1, h2, _⟩ := hd
  unfold invariante editaDespesa
  by_cases hg : (r.tipo == "guardado") = true
  · rw [if_pos hg]
    exact ⟨hr, le_refl _, by simp [hg]⟩
  · rw [if_neg hg]
    by_cases hv : d.valor_pago > r.valor
    · rw [if_pos hv]
      exact ⟨hr, le_refl _, by simp [hg]⟩
    · rw [if_neg hv]
      exact ⟨h1, not_lt.mp hv, by simp [hg]⟩

theorem invariante_marcarPaga (l : List Despesa) (id : String) (pagar : ℚ)
    (confirma : Bool) (now : String) (hl : ∀ x ∈ l, invariante x) :
    ∀ y ∈ (marcarPaga l id pagar confirma now).2, invariante y := by
  simp only [marcarPaga]
  split
  · simpa using hl
  next d hf =>
    split
    · simpa using hl
    next hg =>
      split
      · simpa using hl
      next hq =>
        split
        · simpa using hl
        next hp =>
          split
          · simpa using hl
          next ha =>
            obtain ⟨hd1, hd2, _⟩ := hl d (List.mem_of_find?_eq_some hf)
            apply updateFirst_forall _ _ _ l hl
            intro x hx
            rw [hf] at hx
            obtain rfl : d = x := Option.some.inj hx
            by_cases hov : d.valor_pago + pagar > d.valor
            · rw [if_pos hov]
              exact ⟨le_trans hd1 hd2, le_refl _, by simp [hg]⟩
            · rw [if_neg hov]
              have hp' : 0 < pagar := not_le.mp hp
              exact ⟨add_nonneg hd1 (le_of_lt hp'), not_lt.mp hov, by simp [hg]⟩

/-- Single-step form of the invariant preservation. -/
theorem invariante_aplicaOp (l : List Despesa) (op : Op)
    (hl : ∀ x ∈ l, invariante x) (hop : entradaPos op) :
    ∀ y ∈ aplicaOp l op, invariante y := by
  cases op with
  | add r freshId now =>
    intro y hy
    rcases List.mem_append.mp hy with hy' | hy'
    · exact hl y hy'
    · rw [List.mem_singleton.mp hy']
      exact invariante_novaDespesa r freshId now hop
  | edit id r now =>
    exact updateFirst_forall _ _ _ l hl
      (fun x hx => invariante_editaDespesa r now x hop
        (hl x (List.mem_of_find?_eq_some hx)))
  | pay id pagar confirma now => exact invariante_marcarPaga l id pagar confirma now hl

/-- C1 counterexample: the claim admits add inputs with amount zero, but
adicionar with amount 0 and category extra creates a record with
paid = false although amount_paid = 0 ≥ 0 = amount, so the claimed
biconditional paid == (category == set_aside or amount_paid ≥ amount)
fails after a single add on the empty collection, even though the add
input is non-negative as the claim requires. -/
theorem c1_cex :
    aplicaOps [] [Op.add ⟨"x", 0, "2025-01", "extra"⟩ "id1" "t"]
      = [⟨"id1", "x", 0, "2025-01", false, "", "extra", 0⟩] ∧
    entradaNaoNeg (Op.add ⟨"x", 0, "2025-01", "extra"⟩ "id1" "t") ∧
    ¬ invariante ⟨"id1", "x", 0, "2025-01", false, "", "extra", 0⟩ := by
  refine ⟨by decide, le_refl 0, ?_⟩
  intro ⟨_, _, h3⟩
  simp at h3

/-- C1 (amended): starting from any collection whose records all satisfy
the ledger invariant, after any sequence of add, edit and record_payment
operations in which add inputs have strictly positive amount and edit
inputs non-negative amount, every record satisfies
0 ≤ amount_paid ≤ amount and paid == (category == set_aside or
amount_paid ≥ amount).  (With amount exactly 0 allowed on add the claim is
false, see the counterexample.) -/
theorem c1_amended (start : List Despesa) (ops : List Op)
    (hstart : ∀ d ∈ start, invariante d) (hops : ∀ op ∈ ops, entradaPos op) :
    ∀ d ∈ aplicaOps start ops, invariante d := by
  induction ops generalizing start with
  | nil => simpa [aplicaOps] using hstart
  | cons op ops ih =>
    have hstep : ∀ d ∈ aplicaOp start op, invariante d :=
      invariante_aplicaOp start op hstart (hops op (List.mem_cons_self _ _))
    have hrest : ∀ op' ∈ ops, entradaPos op' :=
      fun op' h => hops op' (List.mem_cons_of_mem _ h)
    simpa [aplicaOps] using ih (aplicaOp start op) hstep hrest

/-- C1 witness: the amended invariant theorem applied to a concrete run
of one positive-amount add followed by a partial payment. -/
theorem c1_witness :
    invariante ⟨"i", "x", 5, "2025-01", false, "", "fixo", 0⟩ := by
  have h := c1_amended [] [Op.add ⟨"x", 5, "2025-01", "fixo"⟩ "i" "t"]
    (by intro d hd; cases hd)
    (by
      intro op hop
      rw [List.mem_singleton.mp hop]
      show (0 : ℚ) < 5
      norm_num)
  exact h _ (by decide)

/-- C2 counterexample: loading a stored set_aside record whose stored
amount_paid (20) exceeds its amount (10) keeps amount_paid at 20, so the
claimed equality amount_paid == amount fails for a record produced by
load. -/
theorem c2_cex :
    carregaRegistro ⟨some "g", some "S", some 10, some "2025-01", none, some false,
        some "", some "guardado", some 20⟩ "f" "now"
      = ⟨"g", "S", 10, "2025-01", true, "now", "guardado", 20⟩ ∧
    ¬ ((20 : ℚ) = 10) := ⟨by decide, by norm_num⟩

/-- C2 (amended): every set_aside record produced by add, edit or load
satisfies paid == true and amount_paid ≥ amount; add and edit establish
the equality amount_paid == amount, while load only raises amount_paid up
to amount and keeps a larger stored value unchanged. -/
theorem c2_amended :
    (∀ (raw : RawDespesa) (freshId now : String),
      (carregaRegistro raw freshId now).tipo = "guardado" →
        (carregaRegistro raw freshId now).valor ≤ (carregaRegistro raw freshId now).valor_pago ∧
          (carregaRegistro raw freshId now).paga = true) ∧
    (∀ (r : EntradaForm) (freshId now : String), r.tipo = "guardado" →
      (novaDespesa r freshId now).valor_pago = (novaDespesa r freshId now).valor ∧
        (novaDespesa r freshId now).paga = true) ∧
    (∀ (r : EntradaForm) (now : String) (d : Despesa), r.tipo = "guardado" →
      (editaDespesa r now d).valor_pago = (editaDespesa r now d).valor ∧
        (editaDespesa r now d).paga = true) := by
  refine ⟨?_, ?_, ?_⟩
  · intro raw freshId now
    simp only [carregaRegistro]
    by_cases ht : tipoCarregado raw = "guardado"
    · rw [if_pos ht]
      intro _
      refine ⟨?_, rfl⟩
      dsimp only
      by_cases hv : raw.valor_pago.getD 0 < raw.valor.getD 0
      · rw [if_pos hv]
      · rw [if_neg hv]
        exact not_lt.mp hv
    · rw [if_neg ht]
      by_cases hp : raw.valor.getD 0 ≤ raw.valor_pago.getD 0
      · rw [if_pos hp]
        intro htipo
        exact absurd htipo ht
      · rw [if_neg hp]
        intro htipo
        exact absurd htipo ht
  · intro r freshId now h
    have hb : (r.tipo == "guardado") = true := beq_iff_eq.mpr h
    refine ⟨?_, ?_⟩ <;> simp [novaDespesa, hb]
  · intro r now d h
    have hb : (r.tipo == "guardado") = true := beq_iff_eq.mpr h
    refine ⟨?_, ?_⟩ <;> simp [editaDespesa, hb]

/-- C2 witness: the amended theorem applied to a concrete loaded record
with stored overpayment, a concrete add and a concrete edit. -/
theorem c2_witness :
    ((carregaRegistro ⟨some "g", some "S", some 10, some "2025-01", none, some false,
        some "", some "guardado", some 20⟩ "f" "now").valor ≤
      (carregaRegistro ⟨some "g", some "S", some 10, some "2025-01", none, some false,
        some "", some "guardado", some 20⟩ "f" "now").valor_pago) ∧
    (novaDespesa ⟨"S", 300, "2025-01", "guardado"⟩ "i" "t").valor_pago
      = (novaDespesa ⟨"S", 300, "2025-01", "guardado"⟩ "i" "t").valor := by
  refine ⟨(c2_amended.1 _ "f" "now" (by decide)).1, ?_⟩
  exact (c2_amended.2.1 ⟨"S", 300, "2025-01", "guardado"⟩ "i" "t" rfl).1

/-- C3 counterexample: marcar_paga checks the guardado category before the
amount, so on a set_aside record a non-positive payment is answered with
the NotApplicable notice, not InvalidAmount (the state is indeed
unchanged). -/
theorem c3_cex :
    marcarPaga [⟨"g1", "S", 300, "", true, "t", "guardado", 300⟩] "g1" (-1) false "t2"
      = (.naoAplicavel, [⟨"g1", "S", 300, "", true, "t", "guardado", 300⟩]) ∧
    MarcarResultado.naoAplicavel ≠ MarcarResultado.valorInvalido ∧
    ((-1 : ℚ) ≤ 0) := ⟨by decide, by decide, by norm_num⟩

/-- C3 (amended): record_payment with a non-positive amount never mutates
the collection, and it reports InvalidAmount exactly on the records the
earlier guards let through: a found record that is not set_aside and still
has positive remaining balance.  On a set_aside record it reports
NotApplicable and on a settled one AlreadySettled, always with no state
change. -/
theorem c3_amended (l : List Despesa) (id : String) (pagar : ℚ) (confirma : Bool)
    (now : String) (h : pagar ≤ 0) :
    (marcarPaga l id pagar confirma now).2 = l ∧
    (∀ d, l.find? (fun x => x.id == id) = some d →
      ((marcarPaga l id pagar confirma now).1 = .valorInvalido ↔
        d.tipo ≠ "guardado" ∧ 0 < max 0 (d.valor - d.valor_pago)) ∧
      (d.tipo = "guardado" → (marcarPaga l id pagar confirma now).1 = .naoAplicavel) ∧
      (d.tipo ≠ "guardado" → max 0 (d.valor - d.valor_pago) ≤ 0 →
        (marcarPaga l id pagar confirma now).1 = .jaQuitada)) := by
  simp only [marcarPaga]
  split
  next hf => exact ⟨rfl, by intro d hd; rw [hf] at hd; cases hd⟩
  next d hf =>
    by_cases hg : (d.tipo == "guardado") = true
    · rw [if_pos hg]
      refine ⟨rfl, ?_⟩
      intro d' hd'
      rw [hf] at hd'
      obtain rfl : d = d' := Option.some.inj hd'
      refine ⟨⟨?_, ?_⟩, fun _ => rfl, fun ht _ => absurd (beq_iff_eq.mp hg) ht⟩
      · intro habs
        exact MarcarResultado.noConfusion habs
      · rintro ⟨ht, _⟩
        exact absurd (beq_iff_eq.mp hg) ht
    · rw [if_neg hg]
      have hg2 : d.tipo ≠ "guardado" := fun he => hg (beq_iff_eq.mpr he)
      by_cases hq : max 0 (d.valor - d.valor_pago) ≤ 0
      · rw [if_pos hq]
        refine ⟨rfl, ?_⟩
        intro d' hd'
        rw [hf] at hd'
        obtain rfl : d = d' := Option.some.inj hd'
        refine ⟨⟨?_, ?_⟩, fun ht => absurd ht hg2, fun _ _ => rfl⟩
        · intro habs
          exact MarcarResultado.noConfusion habs
        · rintro ⟨_, hr⟩
          exact absurd hq (not_le.mpr hr)
      · rw [if_neg hq, if_pos h]
        refine ⟨rfl, ?_⟩
        intro d' hd'
        rw [hf] at hd'
        obtain rfl : d = d' := Option.some.inj hd'
        exact ⟨⟨fun _ => ⟨hg2, not_le.mp hq⟩, fun _ => rfl⟩,
          fun ht => absurd ht hg2, fun _ hq2 => absurd hq2 hq⟩

/-- C3 witness: the amended theorem applied to a pending fixo record and
the payment amount -2. -/
theorem c3_witness :
    (marcarPaga [⟨"a", "X", 100, "", false, "", "fixo", 40⟩] "a" (-2) false "t").2
      = [⟨"a", "X", 100, "", false, "", "fixo", 40⟩] ∧
    (marcarPaga [⟨"a", "X", 100, "", false, "", "fixo", 40⟩] "a" (-2) false "t").1
      = .valorInvalido := by
  have h := c3_amended [⟨"a", "X", 100, "", false, "", "fixo", 40⟩] "a" (-2) false "t"
    (by norm_num)
  refine ⟨h.1, ((h.2 ⟨"a", "X", 100, "", false, "", "fixo", 40⟩ (by decide)).1).mpr
    ⟨by decide, ?_⟩⟩
  rw [lt_max_iff]
  exact Or.inr (by norm_num)

/-- Whatever marcar_paga returns, the collection is either untouched or one
record is replaced in place by an update of only the three settlement
fields. -/
theorem marcarPaga_snd_shape (l : List Despesa) (id : String) (pagar : ℚ)
    (confirma : Bool) (now : String) :
    (marcarPaga l id pagar confirma now).2 = l ∨
    ∃ vp pg pe, (marcarPaga l id pagar confirma now).2
      = updateFirst (fun x => x.id == id)
          (fun x => { x with valor_pago := vp, paga := pg, paga_em := pe }) l := by
  simp only [marcarPaga]
  split
  · exact Or.inl rfl
  next d hf =>
    split
    · exact Or.inl rfl
    · split
      · exact Or.inl rfl
      · split
        · exact Or.inl rfl
        · split
          · exact Or.inl rfl
          · exact Or.inr ⟨_, _, _, rfl⟩

/-- C10: when record_payment succeeds, the collection keeps its length and
order, every record keeps its id, title, amount, competency and category,
and every position other than the first one whose id matches is completely
unchanged (only the target's amount_paid, paid and paid_at may differ). -/
theorem c10_frame (l : List Despesa) (id : String) (pagar : ℚ) (confirma : Bool)
    (now : String) (h : (marcarPaga l id pagar confirma now).1 = .ok) :
    (marcarPaga l id pagar confirma now).2.length = l.length ∧
    (∀ (i : Nat) (d e : Despesa), l[i]? = some d →
      (marcarPaga l id pagar confirma now).2[i]? = some e →
      e.id = d.id ∧ e.titulo = d.titulo ∧ e.valor = d.valor ∧
        e.competencia = d.competencia ∧ e.tipo = d.tipo) ∧
    (∀ i : Nat, i ≠ l.findIdx (fun x => x.id == id) →
      (marcarPaga l id pagar confirma now).2[i]? = l[i]?) := by
  rcases marcarPaga_snd_shape l id pagar confirma now with hs | ⟨vp, pg, pe, hs⟩
  · rw [hs]
    refine ⟨rfl, ?_, fun i _ => rfl⟩
    intro i d e hd he
    rw [hd] at he
    obtain rfl := Option.some.inj he
    exact ⟨rfl, rfl, rfl, rfl, rfl⟩
  · rw [hs]
    refine ⟨updateFirst_length _ _ l, ?_, ?_⟩
    · intro i d e hd he
      rcases updateFirst_getElem? (fun x => x.id == id)
          (fun x => { x with valor_pago := vp, paga := pg, paga_em := pe }) l i with
        hc | ⟨hc, _⟩
      · rw [hc, hd] at he
        obtain rfl := Option.some.inj he
        exact ⟨rfl, rfl, rfl, rfl, rfl⟩
      · rw [hc, hd] at he
        obtain rfl := Option.some.inj he
        exact ⟨rfl, rfl, rfl, rfl, rfl⟩
    · intro i hi
      rcases updateFirst_getElem? (fun x => x.id == id)
          (fun x => { x with valor_pago := vp, paga := pg, paga_em := pe }) l i with
        hc | ⟨_, hieq⟩
      · exact hc
      · exact absurd hieq hi

/-- C10 witness: the frame theorem applied to a successful partial payment
on a one-record collection. -/
theorem c10_witness :
    (marcarPaga [⟨"a", "X", 100, "", false, "", "fixo", 40⟩] "a" 10 false "t").2.length
      = [(⟨"a", "X", 100, "", false, "", "fixo", 40⟩ : Despesa)].length ∧
    (marcarPaga [⟨"a", "X", 100, "", false, "", "fixo", 40⟩] "a" 10 false "t").2[1]?
      = [(⟨"a", "X", 100, "", false, "", "fixo", 40⟩ : Despesa)][1]? := by
  have hok : (marcarPaga [⟨"a", "X", 100, "", false, "", "fixo", 40⟩] "a" 10 false "t").1
      = MarcarResultado.ok := by
    simp [marcarPaga, List.find?, max_def]
    norm_num
  have h := c10_frame [⟨"a", "X", 100, "", false, "", "fixo", 40⟩] "a" 10 false "t" hok
  exact ⟨h.1, h.2.2 1 (by decide)⟩

/-- C7: with status filter "pendentes" and the all-sentinels for category
("todas"), month ("Todos") and search (""), the filter returns exactly the
non-guardado records with strictly positive remaining balance
(remaining = max 0 (amount - amount_paid)), in the collection's order (a
single List.filter pass); in particular, on one fully paid fixo record and
one partially paid extra record, only the latter is returned. -/
theorem c7_filtro_pendentes :
    (∀ base : List Despesa,
      aplica_filtros_base "todas" "pendentes" "Todos" "" base
        = base.filter (fun d => d.tipo != "guardado" &&
            decide (0 < max 0 (d.valor - d.valor_pago)))) ∧
    aplica_filtros_base "todas" "pendentes" "Todos" ""
      [⟨"a", "A", 100, "", true, "t", "fixo", 100⟩, ⟨"b", "B", 50, "", false, "", "extra", 20⟩]
      = [⟨"b", "B", 50, "", false, "", "extra", 20⟩] := by
  have hmain : ∀ base : List Despesa,
      aplica_filtros_base "todas" "pendentes" "Todos" "" base
        = base.filter (fun d => d.tipo != "guardado" &&
            decide (0 < max 0 (d.valor - d.valor_pago))) := by
    intro base
    have hstep : aplica_filtros_base "todas" "pendentes" "Todos" "" base
        = base.filter (fun d => d.tipo != "guardado" &&
            decide (0 < d.valor - d.valor_pago)) := by
      simp [aplica_filtros_base, pyStripL]
    rw [hstep]
    apply List.filter_congr
    intro d hd
    have hmax : (0 < max 0 (d.valor - d.valor_pago)) ↔ (0 < d.valor - d.valor_pago) := by
      rw [lt_max_iff]
      simp
    simp [hmax]
  refine ⟨hmain, ?_⟩
  rw [hmain]
  have h1 : ¬ ((0 : ℚ) < max 0 ((100 : ℚ) - 100)) := by
    rw [lt_max_iff]
    push_neg
    constructor <;> norm_num
  have h2 : ((0 : ℚ) < max 0 ((50 : ℚ) - 20)) := by
    rw [lt_max_iff]
    exact Or.inr (by norm_num)
  simp [List.filter_cons, h1, h2]
  norm_num

/-- C8: for records with amount_paid ≤ amount, total_pending computed with
the signed difference equals the sum of the clamped per-record remaining
over the same fixo and extra records, and total_pending of the empty
sequence is zero. -/
theorem c8_sum_pendente (linhas : List Despesa)
    (h : ∀ d ∈ linhas, d.valor_pago ≤ d.valor) :
    sum_pendente linhas
      = ((linhas.filter (fun d => d.tipo == "fixo" || d.tipo == "extra")).map
          (fun d => max 0 (d.valor - d.valor_pago))).sum ∧
    sum_pendente [] = 0 := by
  refine ⟨?_, rfl⟩
  unfold sum_pendente
  congr 1
  apply List.map_congr_left
  intro d hd
  have hle := h d (List.mem_of_mem_filter hd)
  rw [max_eq_right (sub_nonneg.mpr hle)]

/-- C8 witness: the aggregation theorem applied to a concrete mixed
collection. -/
theorem c8_witness :
    sum_pendente [⟨"a", "A", 100, "", false, "", "fixo", 40⟩,
        ⟨"g", "G", 30, "", true, "t", "guardado", 30⟩]
      = ((([⟨"a", "A", 100, "", false, "", "fixo", 40⟩,
          ⟨"g", "G", 30, "", true, "t", "guardado", 30⟩] : List Despesa).filter
            (fun d => d.tipo == "fixo" || d.tipo == "extra")).map
          (fun d => max 0 (d.valor - d.valor_pago))).sum := by
  have h := c8_sum_pendente [⟨"a", "A", 100, "", false, "", "fixo", 40⟩,
      ⟨"g", "G", 30, "", true, "t", "guardado", 30⟩]
    (by
      intro d hd
      rcases List.mem_cons.mp hd with rfl | hd'
      · show (40 : ℚ) ≤ 100
        norm_num
      · rw [List.mem_singleton.mp hd'])
  exact h.1

theorem isDig_ne (c x : Char) (h : isDig c = true) (hx : isDig x = false) : c ≠ x := by
  intro he
  rw [he, hx] at h
  cases h

theorem isDig_toNat (c : Char) (h : isDig c = true) : 48 ≤ c.toNat ∧ c.toNat ≤ 57 := by
  unfold isDig at h
  simp only [Bool.and_eq_true, decide_eq_true_eq] at h
  exact h

theorem isWS_eq_false_of_isDig (c : Char) (h : isDig c = true) : isWS c = false := by
  have hne : ∀ x : Char, isDig x = false → (c == x) = false := by
    intro x hx
    simp only [beq_eq_false_iff_ne, ne_eq]
    exact isDig_ne c x h hx
  unfold isWS
  rw [hne ' ' (by decide), hne '\t' (by decide), hne '\n' (by decide),
    hne '\r' (by decide), hne '\x0b' (by decide), hne '\x0c' (by decide)]
  rfl

theorem digitVal_le_nine (c : Char) (h : isDig c = true) : digitVal c ≤ 9 := by
  have h2 := (isDig_toNat c h).2
  unfold digitVal
  omega

theorem digitVal_pos (c : Char) (h : isDig c = true) (h0 : c ≠ '0') : 1 ≤ digitVal c := by
  have h1 := (isDig_toNat c h).1
  have hne : c.toNat ≠ 48 := by
    intro he
    apply h0
    have : c = Char.ofNat c.toNat := (Char.ofNat_toNat c).symm
    rw [he] at this
    exact this
  unfold digitVal
  omega

theorem isDig_decChar (n : Nat) : isDig (decChar n) = true := by
  unfold decChar
  split <;> decide

theorem digitVal_decChar (n : Nat) (h : n < 10) : digitVal (decChar n) = n := by
  interval_cases n <;> decide

theorem natDigitsRevAux_isDig (fuel : Nat) :
    ∀ n, ∀ c ∈ natDigitsRevAux n fuel, isDig c = true := by
  induction fuel with
  | zero => intro n c hc; cases hc
  | succ fuel ih =>
    intro n c hc
    unfold natDigitsRevAux at hc
    by_cases h : n < 10
    · rw [if_pos h] at hc
      rw [List.mem_singleton.mp hc]
      exact isDig_decChar n
    · rw [if_neg h] at hc
      rcases List.mem_cons.mp hc with rfl | hc'
      · exact isDig_decChar _
      · exact ih (n / 10) c hc'

theorem natDigits_isDig (n : Nat) : ∀ c ∈ natDigits n, isDig c = true := by
  intro c hc
  exact natDigitsRevAux_isDig (n + 1) n c (List.mem_reverse.mp hc)

theorem valRev_natDigitsRevAux (fuel : Nat) :
    ∀ n, n < fuel → valRev (natDigitsRevAux n fuel) = n := by
  induction fuel with
  | zero => intro n h; omega
  | succ fuel ih =>
    intro n h
    unfold natDigitsRevAux
    by_cases h10 : n < 10
    · rw [if_pos h10]
      simp [valRev, digitVal_decChar n h10]
    · rw [if_neg h10]
      unfold valRev
      have hrec : n / 10 < fuel := by
        have := Nat.div_lt_self (by omega : 0 < n) (by omega : 1 < 10)
        omega
      rw [ih (n / 10) hrec, digitVal_decChar (n % 10) (Nat.mod_lt n (by omega))]
      omega

theorem valN_natDigits (n : Nat) : valN (natDigits n) = n := by
  unfold valN natDigits
  rw [List.reverse_reverse]
  exact valRev_natDigitsRevAux (n + 1) n (Nat.lt_succ_self n)

theorem natDigitsRevAux_ne_nil (fuel n : Nat) (h : n < fuel) :
    natDigitsRevAux n fuel ≠ [] := by
  cases fuel with
  | zero => omega
  | succ fuel =>
    unfold natDigitsRevAux
    by_cases h10 : n < 10
    · rw [if_pos h10]; simp
    · rw [if_neg h10]; simp

theorem natDigits_ne_nil (n : Nat) : natDigits n ≠ [] := by
  unfold natDigits
  intro h
  exact natDigitsRevAux_ne_nil (n + 1) n (Nat.lt_succ_self n) (by simpa using h)

theorem natDigitsRevAux_length_le (k : Nat) :
    ∀ fuel n, n < fuel → n < 10 ^ k → 1 ≤ k → (natDigitsRevAux n fuel).length ≤ k := by
  induction k with
  | zero => omega
  | succ k ih =>
    intro fuel n hf hn _
    cases fuel with
    | zero => omega
    | succ fuel =>
      unfold natDigitsRevAux
      by_cases h10 : n < 10
      · rw [if_pos h10]
        simp only [List.length_singleton]
        omega
      · rw [if_neg h10]
        simp only [List.length_cons]
        have hk1 : 1 ≤ k := by
          by_contra hk
          have : k = 0 := by omega
          subst this
          simp at hn
          omega
        have hdiv : n / 10 < 10 ^ k := by
          rw [Nat.div_lt_iff_lt_mul (by omega : 0 < 10)]
          calc n < 10 ^ (k + 1) := hn
          _ = 10 ^ k * 10 := by ring
        have hfd : n / 10 < fuel := by
          have := Nat.div_lt_self (by omega : 0 < n) (by omega : 1 < 10)
          omega
        have := ih fuel (n / 10) hfd hdiv hk1
        omega

theorem natDigits_length_le (k n : Nat) (hn : n < 10 ^ k) (hk : 1 ≤ k) :
    (natDigits n).length ≤ k := by
  unfold natDigits
  rw [List.length_reverse]
  exact natDigitsRevAux_length_le k (n + 1) n (Nat.lt_succ_self n) hn hk

theorem natDigitsRevAux_length_ge (k : Nat) :
    ∀ fuel n, n < fuel → 10 ^ k ≤ n → k + 1 ≤ (natDigitsRevAux n fuel).length := by
  induction k with
  | zero =>
    intro fuel n hf _
    cases fuel with
    | zero => omega
    | succ fuel =>
      unfold natDigitsRevAux
      by_cases h10 : n < 10
      · rw [if_pos h10]; simp
      · rw [if_neg h10]; simp
  | succ k ih =>
    intro fuel n hf hn
    cases fuel with
    | zero => omega
    | succ fuel =>
      have h10 : ¬ n < 10 := by
        have : 10 ≤ 10 ^ (k + 1) := by
          calc (10 : Nat) = 10 ^ 1 := (pow_one 10).symm
          _ ≤ 10 ^ (k + 1) := Nat.pow_le_pow_right (by omega) (by omega)
        omega
      unfold natDigitsRevAux
      rw [if_neg h10]
      simp only [List.length_cons]
      have hdiv : 10 ^ k ≤ n / 10 := by
        rw [Nat.le_div_iff_mul_le (by omega : 0 < 10)]
        calc 10 ^ k * 10 = 10 ^ (k + 1) := by ring
        _ ≤ n := hn
      have hfd : n / 10 < fuel := by
        have := Nat.div_lt_self (by omega : 0 < n) (by omega : 1 < 10)
        omega
      have := ih fuel (n / 10) hfd hdiv
      omega

theorem natDigits_length_ge (k n : Nat) (hn : 10 ^ k ≤ n) :
    k + 1 ≤ (natDigits n).length := by
  unfold natDigits
  rw [List.length_reverse]
  exact natDigitsRevAux_length_ge k (n + 1) n (Nat.lt_succ_self n) hn

theorem dropWhile_eq_self_of_head {p : Char → Bool} :
    ∀ l : List Char, (∀ c ∈ l.take 1, p c = false) → l.dropWhile p = l
  | [], _ => rfl
  | c :: cs, h => by
    have hc : p c = false := h c (by simp)
    simp [List.dropWhile_cons, hc]

theorem pyStripL_eq_self (l : List Char) (h : ∀ c ∈ l, isWS c = false) :
    pyStripL l = l := by
  unfold pyStripL
  rw [dropWhile_eq_self_of_head l (fun c hc => h c (List.mem_of_mem_take hc))]
  rw [dropWhile_eq_self_of_head l.reverse
    (fun c hc => h c (List.mem_reverse.mp (List.mem_of_mem_take hc)))]
  exact List.reverse_reverse l

theorem pySplitAux_no_sep (sep : Char) :
    ∀ (cs acc : List Char), sep ∉ cs → pySplitAux sep cs acc = [acc.reverse ++ cs]
  | [], acc, _ => by simp [pySplitAux]
  | c :: cs, acc, h => by
    have hc : ¬ c = sep := fun he => h (he ▸ List.mem_cons_self _ _)
    rw [pySplitAux, if_neg hc, pySplitAux_no_sep sep cs (c :: acc)
      (fun hm => h (List.mem_cons_of_mem _ hm))]
    simp

theorem pySplitAux_sep_append (sep : Char) :
    ∀ (xs : List Char) (ys acc : List Char), sep ∉ xs →
      pySplitAux sep (xs ++ sep :: ys) acc
        = (acc.reverse ++ xs) :: pySplitAux sep ys []
  | [], ys, acc, _ => by
    rw [List.nil_append, pySplitAux, if_pos rfl]
    simp
  | x :: xs, ys, acc, h => by
    have hx : ¬ x = sep := fun he => h (he ▸ List.mem_cons_self _ _)
    rw [List.cons_append, pySplitAux, if_neg hx,
      pySplitAux_sep_append sep xs ys (x :: acc) (fun hm => h (List.mem_cons_of_mem _ hm))]
    simp

theorem pySplit_pair (xs ys : List Char) (sep : Char) (hx : sep ∉ xs) (hy : sep ∉ ys) :
    pySplit (xs ++ sep :: ys) sep = [xs, ys] := by
  unfold pySplit
  rw [pySplitAux_sep_append sep xs ys [] hx]
  rw [pySplitAux_no_sep sep ys [] hy]
  simp

theorem pySplit_no_sep (xs : List Char) (sep : Char) (hx : sep ∉ xs) :
    pySplit xs sep = [xs] := by
  unfold pySplit
  rw [pySplitAux_no_sep sep xs [] hx]
  simp

theorem digitsUAux_all_digits :
    ∀ l : List Char, (∀ c ∈ l, isDig c = true) → digitsUAux l = some l
  | [], _ => rfl
  | [c], h => by
    have hc : isDig c = true := h c (List.mem_cons_self _ _)
    have hu : ¬ c = '_' := isDig_ne c '_' hc (by decide)
    show (if c = '_' then none else if isDig c then some [c] else none) = some [c]
    rw [if_neg hu, if_pos hc]
  | c :: c2 :: rest, h => by
    have hc : isDig c = true := h c (List.mem_cons_self _ _)
    have hu : ¬ c = '_' := isDig_ne c '_' hc (by decide)
    show (if c = '_' then
        if isDig c2 then (digitsUAux rest).map (fun ds => c2 :: ds) else none
      else if isDig c then (digitsUAux (c2 :: rest)).map (fun ds => c :: ds) else none)
      = some (c :: c2 :: rest)
    rw [if_neg hu, if_pos hc, digitsUAux_all_digits (c2 :: rest)
      (fun x hx => h x (List.mem_cons_of_mem _ hx))]
    rfl

theorem digitsU_all_digits (l : List Char) (hne : l ≠ [])
    (h : ∀ c ∈ l, isDig c = true) : digitsU l = some (valN l) := by
  cases l with
  | nil => exact absurd rfl hne
  | cons c rest =>
    have hc : isDig c = true := h c (List.mem_cons_self _ _)
    rw [digitsU, if_pos hc,
      digitsUAux_all_digits rest (fun x hx => h x (List.mem_cons_of_mem _ hx))]
    rfl

theorem pyIntL_all_digits (l : List Char) (hne : l ≠ [])
    (h : ∀ c ∈ l, isDig c = true) : pyIntL l = some (valN l : Int) := by
  unfold pyIntL
  rw [pyStripL_eq_self l (fun c hc => isWS_eq_false_of_isDig c (h c hc))]
  cases l with
  | nil => exact absurd rfl hne
  | cons c rest =>
    have hc : isDig c = true := h c (List.mem_cons_self _ _)
    have hp : ¬ c = '+' := isDig_ne c '+' hc (by decide)
    have hm : ¬ c = '-' := isDig_ne c '-' hc (by decide)
    show (if c = '+' then (digitsU rest).map (fun n => (n : Int))
      else if c = '-' then (digitsU rest).map (fun n => -(n : Int))
      else (digitsU (c :: rest)).map (fun n => (n : Int))) = some (valN (c :: rest) : Int)
    rw [if_neg hp, if_neg hm, digitsU_all_digits (c :: rest) (by simp) h]
    rfl

theorem valRev_append (xs ys : List Char) :
    valRev (xs ++ ys) = valRev xs + 10 ^ xs.length * valRev ys := by
  induction xs with
  | nil => simp [valRev]
  | cons c cs ih =>
    show valRev (c :: (cs ++ ys)) = valRev (c :: cs) + 10 ^ (c :: cs).length * valRev ys
    rw [valRev, valRev, ih, List.length_cons]
    ring

theorem valRev_replicate_zero (z : Nat) : valRev (List.replicate z '0') = 0 := by
  induction z with
  | zero => rfl
  | succ z ih => simp [List.replicate_succ, valRev, ih]; rfl

theorem valN_padNatTo (w n : Nat) : valN (padNatTo w n) = n := by
  unfold valN padNatTo
  rw [List.reverse_append, valRev_append, List.reverse_replicate,
    valRev_replicate_zero]
  have := valN_natDigits n
  unfold valN at this
  omega

theorem padNatTo_isDig (w n : Nat) : ∀ c ∈ padNatTo w n, isDig c = true := by
  intro c hc
  unfold padNatTo at hc
  rcases List.mem_append.mp hc with hc' | hc'
  · rw [List.eq_of_mem_replicate hc']
    decide
  · exact natDigits_isDig n c hc'

theorem padNatTo_length (w n : Nat) (hn : n < 10 ^ w) (hw : 1 ≤ w) :
    (padNatTo w n).length = w := by
  unfold padNatTo
  rw [List.length_append, List.length_replicate]
  have := natDigits_length_le w n hn hw
  omega

/-- C4 counterexample: "13/2025" does not match the claimed mm/yyyy pattern
(month 13 is out of range), yet parse_mm_aaaa accepts it and returns
(2025, 13), because int() performs no range or width validation. -/
theorem c4_cex :
    matches_mm_yyyy "13/2025" = false ∧ parse_mm_aaaa "13/2025" = some (2025, 13) :=
  ⟨by decide, by decide⟩

/-- C4 (amended): parse_mm_aaaa returns a pair exactly when the stripped
input splits on '/' into exactly two fields each accepted by Python's
int() (optional whitespace and sign, digits with underscore grouping); no
month-range or digit-count validation happens, and the pair is
(year, month) = (int of the second field, int of the first). -/
theorem c4_amended (s : String) (p : Int × Int) :
    parse_mm_aaaa s = some p ↔
      ∃ mmStr aaStr, pySplit (pyStripL s.data) '/' = [mmStr, aaStr] ∧
        pyIntL aaStr = some p.1 ∧ pyIntL mmStr = some p.2 := by
  obtain ⟨p1, p2⟩ := p
  unfold parse_mm_aaaa
  by_cases ht : pyStripL s.data = []
  · rw [ht, if_pos rfl]
    constructor
    · intro h
      cases h
    · rintro ⟨mmStr, aaStr, hsp', -, -⟩
      rw [show pySplit ([] : List Char) '/' = [[]] from rfl] at hsp'
      simp at hsp'
  · rw [if_neg ht]
    rcases hsp : pySplit (pyStripL s.data) '/' with - | ⟨f1, - | ⟨f2, - | ⟨f3, fs3⟩⟩⟩
    · refine ⟨fun h => Option.noConfusion h, ?_⟩
      rintro ⟨mmStr, aaStr, hsp', -, -⟩
      simp at hsp'
    · refine ⟨fun h => Option.noConfusion h, ?_⟩
      rintro ⟨mmStr, aaStr, hsp', -, -⟩
      simp at hsp'
    · show parMesAno (pyIntL f2) (pyIntL f1) = some (p1, p2) ↔ _
      constructor
      · intro h
        cases haa : pyIntL f2 with
        | none =>
          rw [haa] at h
          cases h
        | some a =>
          cases hmm : pyIntL f1 with
          | none =>
            rw [haa, hmm] at h
            cases h
          | some m =>
            rw [haa, hmm] at h
            obtain ⟨rfl, rfl⟩ : a = p1 ∧ m = p2 := by
              have h' : some ((a, m) : Int × Int) = some (p1, p2) := h
              injection h' with h2
              injection h2 with h3 h4
              exact ⟨h3, h4⟩
            exact ⟨f1, f2, rfl, haa, hmm⟩
      · rintro ⟨mmStr, aaStr, hsp', ha, hm⟩
        obtain ⟨rfl, rfl⟩ : f1 = mmStr ∧ f2 = aaStr := by
          injection hsp' with h1 h2
          injection h2 with h2
          exact ⟨h1, h2⟩
        rw [ha, hm]
        rfl
    · refine ⟨fun h => Option.noConfusion h, ?_⟩
      rintro ⟨mmStr, aaStr, hsp', -, -⟩
      simp at hsp'

/-- C4 witness: the characterization applied at "1/2", which is accepted
with the pair (year, month) = (2, 1). -/
theorem c4_witness : parse_mm_aaaa "1/2" = some (2, 1) :=
  (c4_amended "1/2" (2, 1)).mpr ⟨['1'], ['2'], by decide, by decide, by decide⟩

theorem length_eq_four {α : Type} {l : List α} (h : l.length = 4) :
    ∃ a b c d, l = [a, b, c, d] := by
  rcases l with - | ⟨a, - | ⟨b, - | ⟨c, - | ⟨d, - | ⟨e, tl⟩⟩⟩⟩⟩ <;> simp at h
  exact ⟨a, b, c, d, rfl⟩

theorem padIntTo_ofNat (w n : Nat) : padIntTo w (n : Int) = padNatTo w n := by
  unfold padIntTo
  rw [if_neg (by omega : ¬ (n : Int) < 0), Int.natAbs_ofNat]

theorem intStr_ofNat (n : Nat) : intStr (n : Int) = natDigits n := by
  unfold intStr
  rw [if_neg (by omega : ¬ (n : Int) < 0), Int.natAbs_ofNat]

theorem padNatTo_of_length_ge (w n : Nat) (h : w ≤ (natDigits n).length) :
    padNatTo w n = natDigits n := by
  unfold padNatTo
  rw [Nat.sub_eq_zero_of_le h]
  rfl

theorem padNatTo_ne_nil (w n : Nat) : padNatTo w n ≠ [] := by
  unfold padNatTo
  intro h
  rcases List.append_eq_nil.mp h with ⟨-, h2⟩
  exact natDigits_ne_nil n h2

/-- C5 counterexample: "01/0001" matches the mm/yyyy pattern of the claim
(two-digit month in range, four-digit year), but the round trip renders
the year back through int(), which drops leading zeros: the label becomes
"01/1", not "01/0001". -/
theorem c5_cex :
    matches_mm_yyyy "01/0001" = true ∧
    rotulo_competencia (normaliza_competencia "01/0001") = "01/1" ∧
    "01/1" ≠ "01/0001" := ⟨by decide, by decide, by decide⟩

/-- C5 (amended): for the valid mm/yyyy labels whose year part has no
leading zero (month 1..12, year 1000..9999) — rendered canonically by
rotulo_mm_aaaa, which produces exactly those labels (first conjunct) — the
normalize-then-display round trip is the identity (second conjunct).  For
years below 1000 the pattern still matches but the round trip drops the
zero padding, see the counterexample. -/
theorem c5_amended (a m : Int) (h1 : 1 ≤ m) (h2 : m ≤ 12) (h3 : 1000 ≤ a) (h4 : a ≤ 9999) :
    matches_mm_yyyy (rotulo_mm_aaaa a m) = true ∧
    rotulo_competencia (normaliza_competencia (rotulo_mm_aaaa a m)) = rotulo_mm_aaaa a m := by
  obtain ⟨mn, rfl⟩ : ∃ mn : Nat, m = (mn : Int) :=
    ⟨m.toNat, (Int.toNat_of_nonneg (by omega)).symm⟩
  obtain ⟨an, rfl⟩ : ∃ an : Nat, a = (an : Int) :=
    ⟨a.toNat, (Int.toNat_of_nonneg (by omega)).symm⟩
  have hm1 : 1 ≤ mn := by exact_mod_cast h1
  have hm2 : mn ≤ 12 := by exact_mod_cast h2
  have ha3 : 1000 ≤ an := by exact_mod_cast h3
  have ha4 : an ≤ 9999 := by exact_mod_cast h4
  have hp2 : mn < 10 ^ 2 := by
    have : (10 : Nat) ^ 2 = 100 := by norm_num
    omega
  have hp3 : (10 : Nat) ^ 3 ≤ an := by
    have : (10 : Nat) ^ 3 = 1000 := by norm_num
    omega
  have hp4 : an < 10 ^ 4 := by
    have : (10 : Nat) ^ 4 = 10000 := by norm_num
    omega
  have hlen2 : (padNatTo 2 mn).length = 2 := padNatTo_length 2 mn hp2 (by omega)
  have hlen4ge : 4 ≤ (natDigits an).length := natDigits_length_ge 3 an hp3
  have hstr4 : padNatTo 4 an = natDigits an := padNatTo_of_length_ge 4 an hlen4ge
  have hdata : (rotulo_mm_aaaa (an : Int) (mn : Int)).data
      = padNatTo 2 mn ++ '/' :: natDigits an := by
    unfold rotulo_mm_aaaa
    rw [padIntTo_ofNat, intStr_ofNat]
  have hslash_pad : '/' ∉ padNatTo 2 mn := fun hmem =>
    absurd (padNatTo_isDig 2 mn '/' hmem) (by decide)
  have hslash_dig : '/' ∉ natDigits an := fun hmem =>
    absurd (natDigits_isDig an '/' hmem) (by decide)
  have hdash_pad : '-' ∉ padNatTo 2 mn := fun hmem =>
    absurd (padNatTo_isDig 2 mn '-' hmem) (by decide)
  have hdash_dig : '-' ∉ natDigits an := fun hmem =>
    absurd (natDigits_isDig an '-' hmem) (by decide)
  have hnoWS : ∀ c ∈ padNatTo 2 mn ++ '/' :: natDigits an, isWS c = false := by
    intro c hc
    rcases List.mem_append.mp hc with hc' | hc'
    · exact isWS_eq_false_of_isDig c (padNatTo_isDig 2 mn c hc')
    · rcases List.mem_cons.mp hc' with rfl | hc''
      · decide
      · exact isWS_eq_false_of_isDig c (natDigits_isDig an c hc'')
  constructor
  · obtain ⟨m1, m2, hm12⟩ := List.length_eq_two.mp hlen2
    have hlen4 : (natDigits an).length = 4 :=
      le_antisymm (natDigits_length_le 4 an hp4 (by omega)) hlen4ge
    obtain ⟨y1, y2, y3, y4, hy⟩ := length_eq_four hlen4
    have hdigm : ∀ c ∈ [m1, m2], isDig c = true := by
      rw [← hm12]
      exact padNatTo_isDig 2 mn
    have hdigy : ∀ c ∈ [y1, y2, y3, y4], isDig c = true := by
      rw [← hy]
      exact natDigits_isDig an
    have hmv : digitVal m1 * 10 + digitVal m2 = mn := by
      have hv := valN_padNatTo 2 mn
      rw [hm12] at hv
      simp [valN, valRev] at hv
      omega
    unfold matches_mm_yyyy
    rw [show (rotulo_mm_aaaa (an : Int) (mn : Int)).data = [m1, m2, '/', y1, y2, y3, y4] by
      rw [hdata, hm12, hy]
      rfl]
    show (('/' == '/') && isDig m1 && isDig m2 && isDig y1 && isDig y2 && isDig y3 && isDig y4
      && decide (1 ≤ digitVal m1 * 10 + digitVal m2)
      && decide (digitVal m1 * 10 + digitVal m2 ≤ 12)) = true
    rw [hmv]
    simp [hdigm m1 (by simp), hdigm m2 (by simp), hdigy y1 (by simp), hdigy y2 (by simp),
      hdigy y3 (by simp), hdigy y4 (by simp), hm1, hm2]
  · have hne : padNatTo 2 mn ++ '/' :: natDigits an ≠ [] := by simp
    have hparse : parse_mm_aaaa (String.mk (padNatTo 2 mn ++ '/' :: natDigits an))
        = some ((an : Int), (mn : Int)) := by
      simp only [parse_mm_aaaa]
      rw [pyStripL_eq_self _ hnoWS, if_neg hne, pySplit_pair _ _ '/' hslash_pad hslash_dig]
      show parMesAno (pyIntL (natDigits an)) (pyIntL (padNatTo 2 mn)) = _
      rw [pyIntL_all_digits (natDigits an) (natDigits_ne_nil an) (natDigits_isDig an),
        pyIntL_all_digits (padNatTo 2 mn) (padNatTo_ne_nil 2 mn) (padNatTo_isDig 2 mn),
        valN_natDigits, valN_padNatTo]
      rfl
    have hnorm : normaliza_competencia (rotulo_mm_aaaa (an : Int) (mn : Int))
        = String.mk (natDigits an ++ '-' :: padNatTo 2 mn) := by
      simp only [normaliza_competencia]
      rw [hdata, pyStripL_eq_self _ hnoWS, if_neg hne, hparse]
      show String.mk (padIntTo 4 (an : Int) ++ '-' :: padIntTo 2 (mn : Int)) = _
      rw [padIntTo_ofNat, padIntTo_ofNat, hstr4]
    rw [hnorm]
    have hnoWS2 : ∀ c ∈ natDigits an ++ '-' :: padNatTo 2 mn, isWS c = false := by
      intro c hc
      rcases List.mem_append.mp hc with hc' | hc'
      · exact isWS_eq_false_of_isDig c (natDigits_isDig an c hc')
      · rcases List.mem_cons.mp hc' with rfl | hc''
        · decide
        · exact isWS_eq_false_of_isDig c (padNatTo_isDig 2 mn c hc'')
    simp only [rotulo_competencia]
    rw [pyStripL_eq_self _ hnoWS2, if_neg (by simp), pySplit_pair _ _ '-' hdash_dig hdash_pad]
    show rotuloPar (pyIntL (padNatTo 2 mn)) (pyIntL (natDigits an)) = _
    rw [pyIntL_all_digits (padNatTo 2 mn) (padNatTo_ne_nil 2 mn) (padNatTo_isDig 2 mn),
      pyIntL_all_digits (natDigits an) (natDigits_ne_nil an) (natDigits_isDig an),
      valN_natDigits, valN_padNatTo]
    rfl

/-- C5 witness: the amended round-trip theorem applied to 03/2025. -/
theorem c5_witness :
    matches_mm_yyyy (rotulo_mm_aaaa 2025 3) = true ∧
    rotulo_competencia (normaliza_competencia (rotulo_mm_aaaa 2025 3))
      = rotulo_mm_aaaa 2025 3 :=
  c5_amended 2025 3 (by norm_num) (by norm_num) (by norm_num) (by norm_num)

theorem mem_if_singleton {α : Type} {c : Prop} [Decidable c] {x y : α}
    (h : y ∈ (if c then [x] else [])) : c ∧ y = x := by
  by_cases hc : c
  · rw [if_pos hc] at h
    exact ⟨hc, List.mem_singleton.mp h⟩
  · rw [if_neg hc] at h
    cases h

theorem firstSome?_eq_some {α β : Type} :
    ∀ (l : List α) (f : α → Option β) (b : β), firstSome? l f = some b →
      ∃ a ∈ l, f a = some b
  | [], f, b, h => by cases h
  | a :: as, f, b, h => by
    cases hfa : f a with
    | some b2 =>
      rw [firstSome?, hfa] at h
      exact ⟨a, List.mem_cons_self _ _, hfa.trans h⟩
    | none =>
      rw [firstSome?, hfa] at h
      obtain ⟨a2, ha2, hfa2⟩ := firstSome?_eq_some as f b h
      exact ⟨a2, List.mem_cons_of_mem _ ha2, hfa2⟩

theorem mesAlts_bounds :
    ∀ (cs : List Char) (mc : Nat × List Char), mc ∈ mesAlts cs → 1 ≤ mc.1 ∧ mc.1 ≤ 12
  | [], mc, h => by cases h
  | [a], mc, h => by
    simp only [mesAlts] at h
    obtain ⟨hc, rfl⟩ := mem_if_singleton h
    simp only [Bool.and_eq_true, bne_iff_ne, ne_eq] at hc
    have := digitVal_pos a hc.1 hc.2
    have := digitVal_le_nine a hc.1
    exact ⟨by omega, by omega⟩
  | a :: b :: rest, mc, h => by
    simp only [mesAlts] at h
    rcases List.mem_append.mp h with h1 | h1
    · rcases List.mem_append.mp h1 with h2 | h2
      · obtain ⟨hc, rfl⟩ := mem_if_singleton h2
        simp only [Bool.and_eq_true, decide_eq_true_eq] at hc
        exact ⟨by omega, by omega⟩
      · obtain ⟨hc, rfl⟩ := mem_if_singleton h2
        simp only [Bool.and_eq_true, bne_iff_ne, ne_eq] at hc
        have := digitVal_pos b hc.1.2 hc.2
        have := digitVal_le_nine b hc.1.2
        exact ⟨by omega, by omega⟩
    · obtain ⟨hc, rfl⟩ := mem_if_singleton h1
      simp only [Bool.and_eq_true, bne_iff_ne, ne_eq] at hc
      have := digitVal_pos a hc.1 hc.2
      have := digitVal_le_nine a hc.1
      exact ⟨by omega, by omega⟩

theorem read4Digits_le (cs : List Char) (y : Nat) (r : List Char)
    (h : read4Digits cs = some (y, r)) : y ≤ 9999 := by
  unfold read4Digits at h
  split at h
  next a b c d rest =>
    split at h
    next hdig =>
      simp only [Bool.and_eq_true] at hdig
      obtain ⟨rfl, -⟩ : (((digitVal a * 10 + digitVal b) * 10 + digitVal c) * 10 + digitVal d)
          = y ∧ rest = r := by
        injection h with h2
        injection h2 with h3 h4
        exact ⟨h3, h4⟩
      have := digitVal_le_nine a hdig.1.1.1
      have := digitVal_le_nine b hdig.1.1.2
      have := digitVal_le_nine c hdig.1.2
      have := digitVal_le_nine d hdig.2
      omega
    next => cases h
  next => cases h

theorem dateTextual_bounds (cs : List Char) (y m d : Nat)
    (h : dateTextual cs = some (y, m, d)) : y ≤ 9999 ∧ 1 ≤ m ∧ m ≤ 12 := by
  unfold dateTextual at h
  split at h
  · cases h
  next yy r1 hread =>
    split at h
    · cases h
    next h1 r2 =>
      split at h
      next hdash =>
        obtain ⟨mc, hmem, hmc⟩ := firstSome?_eq_some _ _ _ h
        have hmb := mesAlts_bounds r2 mc hmem
        split at hmc
        · cases hmc
        next h2 r4 =>
          split at hmc
          next hdash2 =>
            obtain ⟨dc, hdmem, hdc⟩ := firstSome?_eq_some _ _ _ hmc
            split at hdc
            next =>
              obtain ⟨rfl, rfl, rfl⟩ : yy = y ∧ mc.1 = m ∧ dc.1 = d := by
                injection hdc with hh
                injection hh with hh1 hh2
                injection hh2 with hh3 hh4
                exact ⟨hh1, hh3, hh4⟩
              exact ⟨read4Digits_le cs yy _ hread, hmb.1, hmb.2⟩
            next => cases hdc
          next => cases hmc
      next => cases h

theorem parseDateYmd_bounds (cs : List Char) (y m d : Nat)
    (h : parseDateYmd cs = some (y, m, d)) :
    1 ≤ y ∧ y ≤ 9999 ∧ 1 ≤ m ∧ m ≤ 12 := by
  unfold parseDateYmd at h
  cases htext : dateTextual cs with
  | none =>
    rw [htext] at h
    cases h
  | some p =>
    obtain ⟨yy, mm, dd⟩ := p
    rw [htext] at h
    have h2 : (if 1 ≤ yy ∧ 1 ≤ dd ∧ dd ≤ diasNoMes yy mm then some (yy, mm, dd) else none)
        = some ((y, m, d) : Nat × Nat × Nat) := h
    split at h2
    next hval =>
      obtain ⟨rfl, rfl, rfl⟩ : yy = y ∧ mm = m ∧ dd = d := by
        injection h2 with hh
        injection hh with hh1 hh2
        injection hh2 with hh3 hh4
        exact ⟨hh1, hh3, hh4⟩
      obtain ⟨hy2, hm1, hm2⟩ := dateTextual_bounds cs _ _ _ htext
      exact ⟨hval.1, hy2, hm1, hm2⟩
    next => cases h2

theorem diasNoMes_pos (y m : Nat) : 1 ≤ diasNoMes y m := by
  unfold diasNoMes
  split_ifs <;> omega

theorem read4Digits_padNatTo (y : Nat) (rest : List Char) (hy : y < 10 ^ 4) :
    read4Digits (padNatTo 4 y ++ rest) = some (y, rest) := by
  obtain ⟨c1, c2, c3, c4, hc⟩ := length_eq_four (padNatTo_length 4 y hy (by omega))
  have hdig := padNatTo_isDig 4 y
  rw [hc] at hdig
  have hv := valN_padNatTo 4 y
  rw [hc] at hv
  simp [valN, valRev] at hv
  rw [hc]
  show (if isDig c1 && isDig c2 && isDig c3 && isDig c4 then
      some (((digitVal c1 * 10 + digitVal c2) * 10 + digitVal c3) * 10 + digitVal c4, rest)
    else none) = some (y, rest)
  rw [if_pos (by simp [hdig c1 (by simp), hdig c2 (by simp), hdig c3 (by simp),
    hdig c4 (by simp)])]
  have : ((digitVal c1 * 10 + digitVal c2) * 10 + digitVal c3) * 10 + digitVal c4 = y := by
    omega
  rw [this]

theorem dateTextual_key (y m : Nat) (hy : y < 10 ^ 4) (hm1 : 1 ≤ m) (hm2 : m ≤ 12) :
    dateTextual (padNatTo 4 y ++ '-' :: (padNatTo 2 m ++ ['-', '0', '1']))
      = some (y, m, 1) := by
  interval_cases m <;>
    (unfold dateTextual
     rw [read4Digits_padNatTo y _ hy]
     rfl)

theorem parseDateYmd_key (y m : Nat) (hy1 : 1 ≤ y) (hy2 : y ≤ 9999) (hm1 : 1 ≤ m)
    (hm2 : m ≤ 12) :
    parseDateYmd (padNatTo 4 y ++ '-' :: (padNatTo 2 m ++ ['-', '0', '1']))
      = some (y, m, 1) := by
  have hy4 : y < 10 ^ 4 := by
    have : (10 : Nat) ^ 4 = 10000 := by norm_num
    omega
  unfold parseDateYmd
  rw [dateTextual_key y m hy4 hm1 hm2]
  show (if 1 ≤ y ∧ 1 ≤ 1 ∧ 1 ≤ diasNoMes y m then some (y, m, 1) else none) = some (y, m, 1)
  exact if_pos ⟨hy1, le_refl 1, diasNoMes_pos y m⟩

theorem carregaRegistro_competencia (raw : RawDespesa) (freshId now : String) :
    (carregaRegistro raw freshId now).competencia
      = normaliza_competencia (compMigrada raw) := by
  simp only [carregaRegistro]
  split_ifs <;> rfl

set_option maxHeartbeats 1000000 in
theorem normaliza_key (y m : Nat) (hy1 : 1 ≤ y) (hy2 : y ≤ 9999) (hm1 : 1 ≤ m)
    (hm2 : m ≤ 12) :
    normaliza_competencia (String.mk (padNatTo 4 y ++ '-' :: padNatTo 2 m))
      = String.mk (padNatTo 4 y ++ '-' :: padNatTo 2 m) := by
  have hnoWS : ∀ c ∈ padNatTo 4 y ++ '-' :: padNatTo 2 m, isWS c = false := by
    intro c hc
    rcases List.mem_append.mp hc with hc' | hc'
    · exact isWS_eq_false_of_isDig c (padNatTo_isDig 4 y c hc')
    · rcases List.mem_cons.mp hc' with rfl | hc''
      · decide
      · exact isWS_eq_false_of_isDig c (padNatTo_isDig 2 m c hc'')
  have hslash : '/' ∉ padNatTo 4 y ++ '-' :: padNatTo 2 m := by
    intro hmem
    rcases List.mem_append.mp hmem with hc' | hc'
    · exact absurd (padNatTo_isDig 4 y '/' hc') (by decide)
    · rcases List.mem_cons.mp hc' with heq | hc''
      · cases heq
      · exact absurd (padNatTo_isDig 2 m '/' hc'') (by decide)
  simp only [normaliza_competencia]
  rw [pyStripL_eq_self _ hnoWS, if_neg (by simp)]
  have hparse : parse_mm_aaaa (String.mk (padNatTo 4 y ++ '-' :: padNatTo 2 m)) = none := by
    simp only [parse_mm_aaaa]
    rw [pyStripL_eq_self _ hnoWS, if_neg (by simp), pySplit_no_sep _ '/' hslash]
  rw [hparse]
  have hassoc : (padNatTo 4 y ++ '-' :: padNatTo 2 m) ++ ['-', '0', '1']
      = padNatTo 4 y ++ '-' :: (padNatTo 2 m ++ ['-', '0', '1']) := by
    simp [List.append_assoc]
  have hkey : parseDateYmd ((padNatTo 4 y ++ '-' :: padNatTo 2 m) ++ ['-', '0', '1'])
      = some (y, m, 1) := by
    rw [hassoc]
    exact parseDateYmd_key y m hy1 hy2 hm1 hm2
  rw [hkey]
  rfl

/-- C9: during load, a record with an absent or empty competency and a
legacy vencimento date that strptime accepts is migrated to the canonical
"{year:04d}-{month:02d}" key of that date (normaliza_competencia keeps
that key); if the due date does not parse, the competency becomes empty. -/
theorem c9_migracao :
    (∀ (raw : RawDespesa) (freshId now : String) (y m d : Nat),
      raw.competencia.getD "" = "" →
      parseDateYmd (raw.vencimento.getD "").data = some (y, m, d) →
      (carregaRegistro raw freshId now).competencia
        = String.mk (padNatTo 4 y ++ '-' :: padNatTo 2 m)) ∧
    (∀ (raw : RawDespesa) (freshId now : String),
      raw.competencia.getD "" = "" →
      raw.vencimento.getD "" ≠ "" →
      parseDateYmd (raw.vencimento.getD "").data = none →
      (carregaRegistro raw freshId now).competencia = "") := by
  constructor
  · intro raw freshId now y m d hc hv
    obtain ⟨hy1, hy2, hm1, hm2⟩ := parseDateYmd_bounds _ y m d hv
    rw [carregaRegistro_competencia]
    have hvne : raw.vencimento.getD "" ≠ "" := by
      intro he
      rw [he] at hv
      cases hv
    have hcomp : compMigrada raw = String.mk (padNatTo 4 y ++ '-' :: padNatTo 2 m) := by
      simp only [compMigrada]
      rw [if_pos hc, if_neg hvne, hv]
    rw [hcomp]
    exact normaliza_key y m hy1 hy2 hm1 hm2
  · intro raw freshId now hc hvne hv
    rw [carregaRegistro_competencia]
    have hcomp : compMigrada raw = "" := by
      simp only [compMigrada]
      rw [if_pos hc, if_neg hvne, hv]
    rw [hcomp]
    rfl

/-- C9 witness: loading a record with legacy due date "2025-03-15" and no
competency yields competency "2025-03". -/
theorem c9_witness :
    (carregaRegistro ⟨none, some "L", some 50, none, some "2025-03-15", none, none,
        some "fixo", some 0⟩ "f" "now").competencia = "2025-03" := by
  have h := c9_migracao.1 ⟨none, some "L", some 50, none, some "2025-03-15", none, none,
      some "fixo", some 0⟩ "f" "now" 2025 3 15 rfl (by decide)
  rw [h]
  decide

/- ### C6: the money display/parse round-trip -/

theorem bne_true_of_ne {c d : Char} (h : c ≠ d) : (c != d) = true :=
  bne_iff_ne.mpr h

theorem takeWhile_all (p : Char → Bool) : ∀ l : List Char,
    (∀ c ∈ l, p c = true) → l.takeWhile p = l
  | [], _ => rfl
  | c :: cs, h => by
    rw [List.takeWhile_cons, if_pos (h c (List.mem_cons_self _ _)),
      takeWhile_all p cs (fun x hx => h x (List.mem_cons_of_mem _ hx))]

theorem dropWhile_all (p : Char → Bool) : ∀ l : List Char,
    (∀ c ∈ l, p c = true) → l.dropWhile p = []
  | [], _ => rfl
  | c :: cs, h => by
    rw [List.dropWhile_cons, if_pos (h c (List.mem_cons_self _ _))]
    exact dropWhile_all p cs (fun x hx => h x (List.mem_cons_of_mem _ hx))

theorem takeWhile_append_stop (p : Char → Bool) :
    ∀ (xs : List Char) (y : Char) (ys : List Char),
      (∀ c ∈ xs, p c = true) → p y = false → (xs ++ y :: ys).takeWhile p = xs
  | [], y, ys, _, hy => by
    rw [List.nil_append, List.takeWhile_cons, if_neg (by simp [hy])]
  | x :: xs, y, ys, hxs, hy => by
    rw [List.cons_append, List.takeWhile_cons, if_pos (hxs x (List.mem_cons_self _ _)),
      takeWhile_append_stop p xs y ys (fun c hc => hxs c (List.mem_cons_of_mem _ hc)) hy]

theorem dropWhile_append_stop (p : Char → Bool) :
    ∀ (xs : List Char) (y : Char) (ys : List Char),
      (∀ c ∈ xs, p c = true) → p y = false → (xs ++ y :: ys).dropWhile p = y :: ys
  | [], y, ys, _, hy => by
    rw [List.nil_append, List.dropWhile_cons, if_neg (by simp [hy])]
  | x :: xs, y, ys, hxs, hy => by
    rw [List.cons_append, List.dropWhile_cons, if_pos (hxs x (List.mem_cons_self _ _))]
    exact dropWhile_append_stop p xs y ys (fun c hc => hxs c (List.mem_cons_of_mem _ hc)) hy

theorem filter_id_of_forall (p : Char → Bool) : ∀ l : List Char,
    (∀ c ∈ l, p c = true) → l.filter p = l
  | [], _ => rfl
  | c :: cs, h => by
    rw [List.filter_cons, if_pos (h c (List.mem_cons_self _ _)),
      filter_id_of_forall p cs (fun x hx => h x (List.mem_cons_of_mem _ hx))]

theorem map_id_of_forall (f : Char → Char) : ∀ l : List Char,
    (∀ c ∈ l, f c = c) → l.map f = l
  | [], _ => rfl
  | c :: cs, h => by
    rw [List.map_cons, h c (List.mem_cons_self _ _),
      map_id_of_forall f cs (fun x hx => h x (List.mem_cons_of_mem _ hx))]

theorem filter_reverse_comm (p : Char → Bool) : ∀ l : List Char,
    l.reverse.filter p = (l.filter p).reverse
  | [] => rfl
  | a :: l => by
    rw [List.reverse_cons, List.filter_append, filter_reverse_comm p l, List.filter_cons]
    by_cases h : p a = true
    · rw [if_pos h]
      simp [List.filter_cons, h]
    · rw [if_neg h]
      simp [List.filter_cons, h]

theorem removeRS_RS (rest : List Char) : removeRS ('R' :: '$' :: rest) = removeRS rest := by
  show (if 'R' = 'R' ∧ '$' = '$' then removeRS rest else 'R' :: removeRS ('$' :: rest))
      = removeRS rest
  rw [if_pos ⟨rfl, rfl⟩]

theorem removeRS_of_not_mem : ∀ l : List Char, 'R' ∉ l → removeRS l = l
  | [], _ => rfl
  | [c], _ => rfl
  | c :: c2 :: rest, h => by
    have hc : c ≠ 'R' := fun hc => h (hc ▸ List.mem_cons_self _ _)
    show (if c = 'R' ∧ c2 = '$' then removeRS rest else c :: removeRS (c2 :: rest))
        = c :: c2 :: rest
    rw [if_neg (fun hx => hc hx.1),
      removeRS_of_not_mem (c2 :: rest) (fun hm => h (List.mem_cons_of_mem _ hm))]

theorem groupRev_filter_dot : ∀ l : List Char, (∀ c ∈ l, isDig c = true) →
    (groupRev l).filter (fun c => c != '.') = l
  | [], _ => rfl
  | [a], h => by
    rw [show groupRev [a] = [a] from rfl]
    exact filter_id_of_forall _ [a]
      (fun c hc => bne_true_of_ne (isDig_ne c '.' (h c hc) (by decide)))
  | [a, b], h => by
    rw [show groupRev [a, b] = [a, b] from rfl]
    exact filter_id_of_forall _ [a, b]
      (fun c hc => bne_true_of_ne (isDig_ne c '.' (h c hc) (by decide)))
  | [a, b, c], h => by
    rw [show groupRev [a, b, c] = [a, b, c] from rfl]
    exact filter_id_of_forall _ [a, b, c]
      (fun c hc => bne_true_of_ne (isDig_ne c '.' (h c hc) (by decide)))
  | a :: b :: c :: d :: rest, h => by
    rw [show groupRev (a :: b :: c :: d :: rest) = a :: b :: c :: '.' :: groupRev (d :: rest)
      from rfl]
    rw [List.filter_cons, if_pos (bne_true_of_ne (isDig_ne a '.' (h a (by simp)) (by decide)))]
    rw [List.filter_cons, if_pos (bne_true_of_ne (isDig_ne b '.' (h b (by simp)) (by decide)))]
    rw [List.filter_cons, if_pos (bne_true_of_ne (isDig_ne c '.' (h c (by simp)) (by decide)))]
    rw [List.filter_cons, if_neg (by decide)]
    rw [groupRev_filter_dot (d :: rest)
      (fun x hx => h x (List.mem_cons_of_mem _ (List.mem_cons_of_mem _
        (List.mem_cons_of_mem _ hx))))]

theorem group3_filter_dot (l : List Char) (h : ∀ c ∈ l, isDig c = true) :
    (group3 l).filter (fun c => c != '.') = l := by
  unfold group3
  rw [filter_reverse_comm,
    groupRev_filter_dot l.reverse (fun c hc => h c (List.mem_reverse.mp hc)),
    List.reverse_reverse]

theorem groupRev_mem : ∀ (l : List Char) (c : Char), c ∈ groupRev l → c ∈ l ∨ c = '.'
  | [], c, h => absurd h (List.not_mem_nil c)
  | [a], c, h => Or.inl h
  | [a, b], c, h => Or.inl h
  | [a, b, d], c, h => Or.inl h
  | a :: b :: d :: e :: rest, c, h => by
    rw [show groupRev (a :: b :: d :: e :: rest) = a :: b :: d :: '.' :: groupRev (e :: rest)
      from rfl] at h
    simp only [List.mem_cons] at h
    rcases h with rfl | rfl | rfl | rfl | h
    · exact Or.inl (by simp)
    · exact Or.inl (by simp)
    · exact Or.inl (by simp)
    · exact Or.inr rfl
    · rcases groupRev_mem (e :: rest) c h with h1 | h1
      · exact Or.inl (List.mem_cons_of_mem _ (List.mem_cons_of_mem _
          (List.mem_cons_of_mem _ h1)))
      · exact Or.inr h1

theorem group3_mem (l : List Char) (c : Char) (h : c ∈ group3 l) : c ∈ l ∨ c = '.' := by
  unfold group3 at h
  rw [List.mem_reverse] at h
  rcases groupRev_mem l.reverse c h with h1 | h1
  · exact Or.inl (List.mem_reverse.mp h1)
  · exact Or.inr h1

theorem pyStripL_ends (x : Char) (mid : List Char) (y : Char)
    (hx : isWS x = false) (hy : isWS y = false) :
    pyStripL (x :: (mid ++ [y])) = x :: (mid ++ [y]) := by
  have hrev : (x :: (mid ++ [y])).reverse = y :: (mid.reverse ++ [x]) := by simp
  have h1 : ∀ c ∈ (x :: (mid ++ [y])).take 1, isWS c = false := by
    intro c hc
    rw [show (x :: (mid ++ [y])).take 1 = [x] from rfl] at hc
    rw [List.mem_singleton.mp hc]
    exact hx
  have h2 : ∀ c ∈ (y :: (mid.reverse ++ [x])).take 1, isWS c = false := by
    intro c hc
    rw [show (y :: (mid.reverse ++ [x])).take 1 = [y] from rfl] at hc
    rw [List.mem_singleton.mp hc]
    exact hy
  unfold pyStripL
  rw [dropWhile_eq_self_of_head (x :: (mid ++ [y])) h1, hrev,
    dropWhile_eq_self_of_head (y :: (mid.reverse ++ [x])) h2, ← hrev,
    List.reverse_reverse]

theorem pyDecimalCore_digits (ds fr : List Char) (hds : ∀ c ∈ ds, isDig c = true)
    (hfr : ∀ c ∈ fr, isDig c = true) (hne : ds ≠ []) :
    pyDecimalCore (ds ++ '.' :: fr) = some (decFrac ds fr) := by
  simp only [pyDecimalCore]
  rw [takeWhile_append_stop isDig ds '.' fr hds (by decide),
    dropWhile_append_stop isDig ds '.' fr hds (by decide)]
  show (if ('.' : Char) = '.' then pyDecimalAfterPoint ds fr
      else if ('.' : Char) = 'e' ∨ ('.' : Char) = 'E' then
        if ds = [] then none else decExpApply ((valN ds : ℚ)) fr
      else none) = some (decFrac ds fr)
  rw [if_pos rfl]
  simp only [pyDecimalAfterPoint]
  rw [takeWhile_all isDig fr hfr, dropWhile_all isDig fr hfr,
    if_neg (fun hand => hne hand.1)]

theorem pyDecimalL_digits (ds fr : List Char) (hds : ∀ c ∈ ds, isDig c = true)
    (hfr : ∀ c ∈ fr, isDig c = true) (hne : ds ≠ []) :
    pyDecimalL (ds ++ '.' :: fr) = some (decFrac ds fr) := by
  have hws : ∀ c ∈ ds ++ '.' :: fr, isWS c = false := by
    intro c hc
    rcases List.mem_append.mp hc with h | h
    · exact isWS_eq_false_of_isDig c (hds c h)
    · rcases List.mem_cons.mp h with rfl | h
      · decide
      · exact isWS_eq_false_of_isDig c (hfr c h)
  cases ds with
  | nil => exact absurd rfl hne
  | cons d0 tl =>
    have hd0 := hds d0 (List.mem_cons_self _ _)
    simp only [pyDecimalL]
    rw [pyStripL_eq_self _ hws]
    show (if d0 = '+' then pyDecimalCore (tl ++ '.' :: fr)
        else if d0 = '-' then (pyDecimalCore (tl ++ '.' :: fr)).map (fun q => -q)
        else pyDecimalCore (d0 :: (tl ++ '.' :: fr))) = some (decFrac (d0 :: tl) fr)
    rw [if_neg (isDig_ne d0 '+' hd0 (by decide)), if_neg (isDig_ne d0 '-' hd0 (by decide))]
    exact pyDecimalCore_digits (d0 :: tl) fr hds hfr hne

theorem pyDecimalL_digits_neg (ds fr : List Char) (hds : ∀ c ∈ ds, isDig c = true)
    (hfr : ∀ c ∈ fr, isDig c = true) (hne : ds ≠ []) :
    pyDecimalL ('-' :: (ds ++ '.' :: fr)) = some (-(decFrac ds fr)) := by
  have hws : ∀ c ∈ '-' :: (ds ++ '.' :: fr), isWS c = false := by
    intro c hc
    rcases List.mem_cons.mp hc with rfl | hc
    · decide
    · rcases List.mem_append.mp hc with h | h
      · exact isWS_eq_false_of_isDig c (hds c h)
      · rcases List.mem_cons.mp h with rfl | h
        · decide
        · exact isWS_eq_false_of_isDig c (hfr c h)
  simp only [pyDecimalL]
  rw [pyStripL_eq_self _ hws]
  show (if ('-' : Char) = '+' then pyDecimalCore (ds ++ '.' :: fr)
      else if ('-' : Char) = '-' then (pyDecimalCore (ds ++ '.' :: fr)).map (fun q => -q)
      else pyDecimalCore ('-' :: (ds ++ '.' :: fr))) = some (-(decFrac ds fr))
  rw [if_neg (by decide), if_pos rfl, pyDecimalCore_digits ds fr hds hfr hne]
  rfl

theorem den_one_cast (q : ℚ) (h : q.den = 1) : ((q.num : ℚ)) = q := by
  have h1 := Rat.num_div_den q
  rw [h] at h1
  simpa using h1

theorem quantizeCents_of_den_one (a : ℚ) (h : (a * 100).den = 1) :
    quantizeCents a = (a * 100).num := by
  have hz : (((a * 100).num : ℚ)) = a * 100 := den_one_cast _ h
  have h12 : ⌊(1 / 2 : ℚ)⌋ = 0 := by
    rw [Int.floor_eq_zero_iff, Set.mem_Ico]
    constructor <;> norm_num
  unfold quantizeCents
  by_cases h0 : 0 ≤ a
  · rw [if_pos h0]
    conv_lhs => rw [← hz]
    rw [Int.floor_int_add, h12, add_zero]
  · rw [if_neg h0]
    have hneg : -a * 100 = (((-(a * 100).num : ℤ)) : ℚ) := by
      push_cast
      rw [hz]
      ring
    rw [hneg, Int.floor_int_add, h12, add_zero, neg_neg]

theorem parseValorUI_money (z : Int) :
    parseValorUI (String.mk ('R' :: '$' :: ' ' ::
      ((if z < 0 then ['-'] else []) ++ group3 (natDigits (z.natAbs / 100)) ++
        ',' :: padNatTo 2 (z.natAbs % 100)))) = some ((z : ℚ) / 100) := by
  set n := z.natAbs with hn
  set ds := natDigits (n / 100) with hds_def
  set fr := padNatTo 2 (n % 100) with hfr_def
  have hds : ∀ c ∈ ds, isDig c = true := by rw [hds_def]; exact natDigits_isDig _
  have hfr : ∀ c ∈ fr, isDig c = true := by rw [hfr_def]; exact padNatTo_isDig _ _
  have hfrlen : fr.length = 2 := by
    rw [hfr_def]
    exact padNatTo_length 2 (n % 100) (Nat.mod_lt n (by norm_num)) (by norm_num)
  have hdsne : ds ≠ [] := by rw [hds_def]; exact natDigits_ne_nil _
  obtain ⟨f1, f2, hf12⟩ := List.length_eq_two.mp hfrlen
  have hclass : ∀ c : Char, (isDig c = true ∨ c = '.' ∨ c = ',' ∨ c = '-') →
      c ≠ 'R' ∧ isWS c = false ∧ (c != ' ') = true := by
    rintro c (h | rfl | rfl | rfl)
    · exact ⟨isDig_ne c 'R' h (by decide), isWS_eq_false_of_isDig c h,
        bne_true_of_ne (isDig_ne c ' ' h (by decide))⟩
    · exact ⟨by decide, by decide, by decide⟩
    · exact ⟨by decide, by decide, by decide⟩
    · exact ⟨by decide, by decide, by decide⟩
  set body := (if z < 0 then ['-'] else []) ++ group3 ds ++ ',' :: fr with hbody_def
  have hbody : ∀ c ∈ body, isDig c = true ∨ c = '.' ∨ c = ',' ∨ c = '-' := by
    intro c hc
    rw [hbody_def] at hc
    rcases List.mem_append.mp hc with hc1 | hc2
    · rcases List.mem_append.mp hc1 with hs | hg
      · by_cases hzs : z < 0
        · rw [if_pos hzs] at hs
          simp at hs
          exact Or.inr (Or.inr (Or.inr hs))
        · rw [if_neg hzs] at hs
          exact absurd hs (List.not_mem_nil c)
      · rcases group3_mem ds c hg with h1 | h1
        · exact Or.inl (hds c h1)
        · exact Or.inr (Or.inl h1)
    · rcases List.mem_cons.mp hc2 with rfl | hf
      · exact Or.inr (Or.inr (Or.inl rfl))
      · exact Or.inl (hfr c hf)
  have hf2mem : f2 ∈ body := by
    rw [hbody_def, hf12]
    simp
  have hf2ws : isWS f2 = false := (hclass f2 (hbody f2 hf2mem)).2.1
  set mid := '$' :: ' ' :: ((if z < 0 then ['-'] else []) ++ group3 ds ++ [',', f1])
    with hmid_def
  have hLform : ('R' :: '$' :: ' ' :: body : List Char) = 'R' :: (mid ++ [f2]) := by
    rw [hmid_def, hbody_def, hf12]
    simp
  have hstrip : pyStripL ('R' :: '$' :: ' ' :: body) = 'R' :: '$' :: ' ' :: body := by
    rw [hLform, pyStripL_ends 'R' mid f2 (by decide) hf2ws, ← hLform]
  have hR : 'R' ∉ (' ' :: body) := by
    intro hmem
    rcases List.mem_cons.mp hmem with h | h
    · exact absurd h (by decide)
    · exact (hclass 'R' (hbody 'R' h)).1 rfl
  have hfdot : body.filter (fun c => c != '.') =
      (if z < 0 then ['-'] else []) ++ ds ++ ',' :: fr := by
    rw [hbody_def, List.filter_append, List.filter_append]
    congr 1
    · congr 1
      · by_cases hzs : z < 0
        · rw [if_pos hzs]
          decide
        · rw [if_neg hzs]
          rfl
      · exact group3_filter_dot ds hds
    · rw [List.filter_cons, if_pos (by decide),
        filter_id_of_forall _ fr
          (fun c hc => bne_true_of_ne (isDig_ne c '.' (hfr c hc) (by decide)))]
  have hmap : (((if z < 0 then ['-'] else []) ++ ds ++ ',' :: fr).map
      (fun c => if c = ',' then '.' else c)) =
      (if z < 0 then ['-'] else []) ++ ds ++ '.' :: fr := by
    rw [List.map_append, List.map_append, List.map_cons]
    congr 1
    · congr 1
      · by_cases hzs : z < 0
        · rw [if_pos hzs]
          decide
        · rw [if_neg hzs]
          rfl
      · exact map_id_of_forall _ ds (fun c hc => if_neg (isDig_ne c ',' (hds c hc) (by decide)))
    · rw [map_id_of_forall _ fr (fun c hc => if_neg (isDig_ne c ',' (hfr c hc) (by decide)))]
      exact rfl
  have harith : decFrac ds fr = ((n : ℚ)) / 100 := by
    unfold decFrac
    rw [hds_def, hfr_def, valN_natDigits, valN_padNatTo,
      padNatTo_length 2 (n % 100) (Nat.mod_lt n (by norm_num)) (by norm_num)]
    have hdm : ((100 : ℚ)) * ((n / 100 : Nat) : ℚ) + ((n % 100 : Nat) : ℚ) = (n : ℚ) := by
      exact_mod_cast Nat.div_add_mod n 100
    rw [show ((10 : ℚ)) ^ 2 = 100 from by norm_num]
    field_simp
    linarith [hdm]
  simp only [parseValorUI]
  rw [hstrip, removeRS_RS, removeRS_of_not_mem _ hR]
  rw [List.filter_cons, if_neg (by decide)]
  rw [filter_id_of_forall _ body (fun c hc => (hclass c (hbody c hc)).2.2)]
  rw [hfdot, hmap]
  by_cases hzs : z < 0
  · rw [if_pos hzs, List.singleton_append, List.cons_append,
      pyDecimalL_digits_neg ds fr hds hfr hdsne, harith]
    have h2 : ((n : ℚ)) = -(z : ℚ) := by
      rw [hn, Int.cast_natAbs]
      exact_mod_cast abs_of_neg hzs
    rw [h2, neg_div, neg_neg]
  · rw [if_neg hzs, List.nil_append,
      pyDecimalL_digits ds fr hds hfr hdsne, harith]
    have h2 : ((n : ℚ)) = (z : ℚ) := by
      rw [hn, Int.cast_natAbs]
      exact_mod_cast abs_of_nonneg (not_lt.mp hzs)
    rw [h2]

/-- C6: for every amount with at most two fractional digits (a * 100 is an
integer), rendering with dinheiro (round-half-up to cents, "R$ " prefix,
'.' thousands separator, ',' decimal separator) and parsing the result back
through the money-entry cleaning (strip, drop "R$", drop spaces and '.',
map ',' to '.', Decimal) returns exactly the original amount. -/
theorem c6_dinheiro_roundtrip (a : ℚ) (h : (a * 100).den = 1) :
    parseValorUI (dinheiro a) = some a := by
  have hq : quantizeCents a = (a * 100).num := quantizeCents_of_den_one a h
  have hz : (((a * 100).num : ℚ)) = a * 100 := den_one_cast _ h
  simp only [dinheiro]
  rw [hq, parseValorUI_money]
  rw [show ((((a * 100).num : ℤ) : ℚ)) / 100 = a from by
    rw [hz]
    exact mul_div_cancel_right₀ a (by norm_num)]

/-- C6 witness: 1234.56 (with thousands digit and nonzero cents) has exact
cents, and the round trip through dinheiro and parseValorUI returns it. -/
theorem c6_witness :
    (((123456 : ℚ) / 100) * 100).den = 1 ∧
      parseValorUI (dinheiro ((123456 : ℚ) / 100)) = some ((123456 : ℚ) / 100) := by
  have hden : (((123456 : ℚ) / 100) * 100).den = 1 := by
    rw [div_mul_cancel₀ (123456 : ℚ) (by norm_num : (100 : ℚ) ≠ 0)]
    rfl
  exact ⟨hden, c6_dinheiro_roundtrip _ hden⟩

end GestorGastos
